import Mathlib

/-!
Verification of the open-flix backend (src/backend/index.js and the current
backend copy in src/unnamed/part_000, plus the frontend discover filter in
src/unnamed/part_002) against its natural-language specification.

JavaScript strings are modelled as Lean `String`s, with the handful of
JavaScript string library operations the code uses (split on a one-character
separator, trim, substring, number-to-string) embedded explicitly at the
level of `List Char`, faithful to their ECMAScript semantics.
-/

namespace OpenFlix

/-! ## JavaScript string primitives -/

/-- Embedding of `String.prototype.split` with a one-character separator, on character
lists: splits at every occurrence of the separator, keeping empty segments,
and yields `[""]` on the empty string (ECMAScript semantics for a non-empty
separator). -/
def jsSplitChars (sep : Char) : List Char → List (List Char)
  | [] => [[]]
  | c :: cs =>
    match jsSplitChars sep cs with
    | [] => [[]]
    | h :: t => if c = sep then [] :: h :: t else (c :: h) :: t

theorem jsSplitChars_ne_nil (sep : Char) (l : List Char) : jsSplitChars sep l ≠ [] := by
  induction l with
  | nil => simp [jsSplitChars]
  | cons c cs ih =>
    simp only [jsSplitChars]
    match h : jsSplitChars sep cs with
    | [] => exact absurd h ih
    | hd :: tl => by_cases hc : c = sep <;> simp [hc]

theorem jsSplitChars_length (sep : Char) (l : List Char) :
    (jsSplitChars sep l).length = l.count sep + 1 := by
  induction l with
  | nil => simp [jsSplitChars]
  | cons c cs ih =>
    simp only [jsSplitChars]
    match h : jsSplitChars sep cs with
    | [] => exact absurd h (jsSplitChars_ne_nil sep cs)
    | hd :: tl =>
      rw [h] at ih
      by_cases hc : c = sep
      · subst hc
        simp only [if_pos rfl, List.count_cons_self, List.length_cons]
        simpa using ih
      · have hcc : List.count sep (c :: cs) = List.count sep cs :=
          List.count_cons_of_ne (fun hx => hc hx.symm) cs
        simp only [if_neg hc, List.length_cons, hcc]
        simpa using ih

theorem jsSplitChars_head (sep : Char) (l : List Char) :
    (jsSplitChars sep l).headD [] = l.takeWhile (fun c => c ≠ sep) := by
  induction l with
  | nil => simp [jsSplitChars]
  | cons c cs ih =>
    simp only [jsSplitChars]
    match h : jsSplitChars sep cs with
    | [] => exact absurd h (jsSplitChars_ne_nil sep cs)
    | hd :: tl =>
      rw [h] at ih
      by_cases hc : c = sep
      · subst hc; simp [List.takeWhile]
      · simp only [if_neg hc, List.headD_cons, List.takeWhile]
        simp only [List.headD_cons] at ih
        simp [hc, ih]

/-- Embedding of `s.split(sep)` for a string and a one-character separator. -/
def jsSplit (sep : Char) (s : String) : List String :=
  (jsSplitChars sep s.toList).map List.asString

theorem jsSplit_length (sep : Char) (s : String) :
    (jsSplit sep s).length = s.toList.count sep + 1 := by
  simp [jsSplit, jsSplitChars_length]

/-- Embedding of `s.substring(a, b)` (for `a ≤ b`): the characters from index `a`
(inclusive) to `b` (exclusive), clamped to the string length. -/
def jsSubstring (s : String) (a b : Nat) : String :=
  ((s.toList.drop a).take (b - a)).asString

/-- The whitespace test used by `String.prototype.trim`, modelled by Lean's
`Char.isWhitespace` (space, tab, CR, LF; the guide and title texts contain
no exotic whitespace). -/
def jsIsWs (c : Char) : Bool := c.isWhitespace

/-- Embedding of `trim` on character lists: drop whitespace from both ends. -/
def trimChars (l : List Char) : List Char :=
  ((l.dropWhile jsIsWs).reverse.dropWhile jsIsWs).reverse

/-- Embedding of `s.trim()`. -/
def jsTrim (s : String) : String := (trimChars s.toList).asString

theorem dropWhile_sublist {p : Char → Bool} (l : List Char) : (l.dropWhile p).Sublist l := by
  induction l with
  | nil => simp
  | cons c cs ih =>
    by_cases h : p c
    · simp only [List.dropWhile, h]
      exact ih.trans (List.sublist_cons_self c cs)
    · simp [List.dropWhile, h]

theorem trimChars_sublist (l : List Char) : (trimChars l).Sublist l := by
  unfold trimChars
  have h1 : (l.dropWhile jsIsWs).Sublist l := dropWhile_sublist l
  have h2 : (((l.dropWhile jsIsWs).reverse.dropWhile jsIsWs).reverse).Sublist
      ((l.dropWhile jsIsWs).reverse.reverse) := by
    exact (dropWhile_sublist _).reverse
  simp only [List.reverse_reverse] at h2
  exact h2.trans h1

/-- Fuel-driven base-10 rendering helper (structural recursion so that
concrete evaluations reduce in the kernel); the fuel never runs out when it
is at least the number being rendered. -/
def natToCharsF : Nat → Nat → List Char
  | 0, n => [Nat.digitChar n]
  | fuel + 1, n =>
    if n < 10 then [Nat.digitChar n]
    else natToCharsF fuel (n / 10) ++ [Nat.digitChar (n % 10)]

/-- JavaScript decimal rendering of a non-negative integer, as produced by
template interpolation of a number: base-10 digits, most significant first. -/
def natToChars (n : Nat) : List Char := natToCharsF n n

/-- Numeric value of a digit list (inverse of `natToChars` on its range). -/
def charsVal (l : List Char) : Nat :=
  l.foldl (fun a c => 10 * a + (c.toNat - 48)) 0

theorem charsVal_append (l : List Char) (c : Char) :
    charsVal (l ++ [c]) = 10 * charsVal l + (c.toNat - 48) := by
  simp [charsVal, List.foldl_append]

theorem digitChar_spec : ∀ d : Nat, d < 10 →
    (Nat.digitChar d).toNat - 48 = d ∧ (Nat.digitChar d).isDigit = true := by
  decide

theorem charsVal_natToCharsF (fuel : Nat) :
    ∀ n, n ≤ fuel → charsVal (natToCharsF fuel n) = n := by
  induction fuel with
  | zero =>
    intro n h
    have : n = 0 := by omega
    subst this
    decide
  | succ f ih =>
    intro n h
    by_cases h10 : n < 10
    · rw [natToCharsF, if_pos h10]
      simp [charsVal, (digitChar_spec n h10).1]
    · rw [natToCharsF, if_neg h10, charsVal_append]
      rw [ih (n / 10) (by omega)]
      rw [(digitChar_spec (n % 10) (Nat.mod_lt n (by omega))).1]
      omega

theorem charsVal_natToChars (n : Nat) : charsVal (natToChars n) = n :=
  charsVal_natToCharsF n n (Nat.le_refl n)

theorem natToChars_inj : Function.Injective natToChars := by
  intro a b h
  have := charsVal_natToChars a
  rw [h, charsVal_natToChars] at this
  omega

theorem natToCharsF_digits (fuel : Nat) :
    ∀ n, n ≤ fuel → ∀ c ∈ natToCharsF fuel n, c.isDigit = true := by
  induction fuel with
  | zero =>
    intro n h
    have : n = 0 := by omega
    subst this
    decide
  | succ f ih =>
    intro n h
    by_cases h10 : n < 10
    · rw [natToCharsF, if_pos h10]
      simpa using (digitChar_spec n h10).2
    · rw [natToCharsF, if_neg h10]
      intro c hc
      rcases List.mem_append.mp hc with h1 | h2
      · exact ih (n / 10) (by omega) c h1
      · simp only [List.mem_singleton] at h2
        subst h2
        exact (digitChar_spec (n % 10) (Nat.mod_lt n (by omega))).2

theorem natToChars_digits (n : Nat) : ∀ c ∈ natToChars n, c.isDigit = true :=
  natToCharsF_digits n n (Nat.le_refl n)

/-! ## Rating normalization (POST /api/media, part_000 line 401)

`const rating = ratingText.split('.').length > 2 ? ratingText.substring(0, 3)
              : ratingText.split('/')[0];` -/

def ratingNormalize (ratingText : String) : String :=
  if 2 < (jsSplit '.' ratingText).length then jsSubstring ratingText 0 3
  else (jsSplit '/' ratingText).headD ""

/-- C6: rating normalization truncates to the first three characters of the
raw text when the text has more than two dot-separated segments (equivalently,
at least two dots), and otherwise keeps the segment before the first `/`;
in particular "8.7" maps to "8.7" and "8.7.1" maps to "8.7". -/
theorem rating_normalization_spec (s : String) :
    ratingNormalize s =
      (if 2 ≤ s.toList.count '.' then (s.toList.take 3).asString
       else (s.toList.takeWhile (fun c => c ≠ '/')).asString) ∧
    ratingNormalize "8.7" = "8.7" ∧ ratingNormalize "8.7.1" = "8.7" := by
  refine ⟨?_, by decide, by decide⟩
  unfold ratingNormalize
  rw [jsSplit_length]
  by_cases h : 2 ≤ s.toList.count '.'
  · rw [if_pos (by omega), if_pos h]
    simp [jsSubstring]
  · rw [if_neg (by omega), if_neg h]
    unfold jsSplit
    obtain ⟨hd, tl, he⟩ := List.exists_cons_of_ne_nil (jsSplitChars_ne_nil '/' s.toList)
    have hh := jsSplitChars_head '/' s.toList
    rw [he] at hh ⊢
    simp only [List.headD_cons] at hh
    simp only [List.map_cons, List.headD_cons, hh]

/-! ## Slug derivation (normalizeTitleForEpguides, src/backend/index.js
lines 22-36; the copy in part_000 lines 201-215 is byte-identical up to a
UTF-8/Windows-1252 double-encoding of the en dash in the regex)

`title.replace(/\(TV Series \d{4}(?:–\d{4})?\)/, '').trim()` then
`.replace(/\(US\)/, '').trim()` then `.replace(/[^a-zA-Z0-9]/g, '')`. -/

/-- Match of the optional part `(?:–\d{4})?\)` of the TV-series regex at the
given tail, with the regex backtracking (greedy optional group first):
returns the number of characters consumed. -/
def tvSeriesTail : List Char → Option Nat
  | '–' :: e1 :: e2 :: e3 :: e4 :: ')' :: _ =>
    if e1.isDigit && e2.isDigit && e3.isDigit && e4.isDigit then some 6 else none
  | ')' :: _ => some 1
  | _ => none

/-- Match of `/\(TV Series \d{4}(?:–\d{4})?\)/` at the head of the list:
returns the length of the match. -/
def matchTvSeriesAt : List Char → Option Nat
  | '(' :: 'T' :: 'V' :: ' ' :: 'S' :: 'e' :: 'r' :: 'i' :: 'e' :: 's' :: ' ' ::
      d1 :: d2 :: d3 :: d4 :: rest =>
    if d1.isDigit && d2.isDigit && d3.isDigit && d4.isDigit then
      (tvSeriesTail rest).map (fun k => 15 + k)
    else none
  | _ => none

/-- Embedding of `title.replace(/\(TV Series \d{4}(?:–\d{4})?\)/, '')`: removes the
leftmost match of the pattern, if any (non-global replace). -/
def removeTvSeries (l : List Char) : List Char :=
  match l with
  | [] => []
  | c :: cs =>
    match matchTvSeriesAt (c :: cs) with
    | some k => (c :: cs).drop k
    | none => c :: removeTvSeries cs

/-- Embedding of `.replace(/\(US\)/, '')`: removes the leftmost occurrence of the literal
"(US)", if any. -/
def removeUS (l : List Char) : List Char :=
  match l with
  | [] => []
  | c :: cs =>
    if ("(US)".toList).isPrefixOf (c :: cs) then (c :: cs).drop 4
    else c :: removeUS cs

/-- The slug pipeline on character lists: strip the TV-series suffix, trim,
strip the "(US)" marker, trim, keep only `[a-zA-Z0-9]`. -/
def normalizeTitleChars (l : List Char) : List Char :=
  (trimChars (removeUS (trimChars (removeTvSeries l)))).filter (fun c => c.isAlphanum)

/-- The function `normalizeTitleForEpguides` from src/backend/index.js lines 22-36. -/
def normalizeTitleForEpguides (title : String) : String :=
  (normalizeTitleChars title.toList).asString

theorem removeTvSeries_sublist (l : List Char) : (removeTvSeries l).Sublist l := by
  induction l with
  | nil => simp [removeTvSeries]
  | cons c cs ih =>
    rw [removeTvSeries]
    cases h : matchTvSeriesAt (c :: cs) with
    | some k => exact List.drop_sublist k (c :: cs)
    | none => exact ih.cons₂ c

theorem removeUS_sublist (l : List Char) : (removeUS l).Sublist l := by
  induction l with
  | nil => simp [removeUS]
  | cons c cs ih =>
    rw [removeUS]
    by_cases h : ("(US)".toList).isPrefixOf (c :: cs)
    · rw [if_pos h]
      exact List.drop_sublist 4 (c :: cs)
    · rw [if_neg h]
      exact ih.cons₂ c

theorem normalizeTitleChars_sublist (l : List Char) : (normalizeTitleChars l).Sublist l := by
  unfold normalizeTitleChars
  exact ((List.filter_sublist _).trans
    ((trimChars_sublist _).trans (removeUS_sublist _))).trans
    ((trimChars_sublist _).trans (removeTvSeries_sublist l))

/-- C7: slug derivation strips the "(TV Series YYYY[–YYYY])" suffix and the
"(US)" marker and removes every non-alphanumeric character, with no case
transformation (every kept character appears verbatim, in order, in the
title); "The Office (US)" yields "TheOffice" and
"Breaking Bad (TV Series 2008–2013)" yields "BreakingBad". -/
theorem slug_derivation_spec (t : String) :
    normalizeTitleForEpguides "The Office (US)" = "TheOffice" ∧
    normalizeTitleForEpguides "Breaking Bad (TV Series 2008–2013)" = "BreakingBad" ∧
    (normalizeTitleChars t.toList).Sublist t.toList ∧
    (∀ c ∈ normalizeTitleChars t.toList, c.isAlphanum = true) := by
  refine ⟨by decide, by decide, normalizeTitleChars_sublist t.toList, ?_⟩
  intro c hc
  unfold normalizeTitleChars at hc
  exact (List.mem_filter.mp hc).2

/-! ## Air-date parsing (parseAirDate, src/backend/index.js lines 12-19 /
part_000 lines 191-198) -/

/-- A JavaScript `Date` value: either the Invalid Date marker or a calendar
date. Modelled from the spec and ECMAScript: `new Date(string)` on the
"D Mon YYYY" shape produced by `parseAirDate` yields the designated calendar
date (month given here as 1..12), and every string not of that shape yields
Invalid Date (non-ISO lenience beyond this shape is implementation-defined
and not modelled). -/
inductive JsDate where
  | invalid : JsDate
  | valid : (year : Nat) → (month : Nat) → (day : Nat) → JsDate
deriving DecidableEq, Repr

/-- Split at every whitespace character, keeping empty segments (structural
helper for tokenization). -/
def splitWs : List Char → List (List Char)
  | [] => [[]]
  | c :: cs =>
    match splitWs cs with
    | [] => [[]]
    | h :: t => if jsIsWs c then [] :: h :: t else (c :: h) :: t

/-- The whitespace-separated words of a character list. -/
def wordsOf (l : List Char) : List (List Char) :=
  (splitWs l).filter (fun w => ¬ w.isEmpty)

/-- English month-name tokens recognized by `Date` parsing, in calendar
order. -/
def monthNames : List String :=
  ["Jan", "Feb", "Mar", "Apr", "May", "Jun", "Jul", "Aug", "Sep", "Oct", "Nov", "Dec"]

/-- The 1-based calendar month for a month-name token, if it is one. -/
def monthOfName (tok : List Char) : Option Nat :=
  (monthNames.findIdx? (fun m => m.toList == tok)).map (fun i => i + 1)

/-- Embedding of `new Date(s)` for the strings `parseAirDate` constructs: the "D Mon YYYY"
token shape parses to the corresponding calendar date, anything else is
Invalid Date. -/
def jsNewDate (s : String) : JsDate :=
  match wordsOf s.toList with
  | [d, mon, y] =>
    match monthOfName mon with
    | some m =>
      if d.all Char.isDigit = true ∧ d ≠ [] ∧ y.all Char.isDigit = true ∧ y ≠ [] ∧
          1 ≤ charsVal d ∧ charsVal d ≤ 31 then
        JsDate.valid (charsVal y) m (charsVal d)
      else JsDate.invalid
    | none => JsDate.invalid
  | _ => JsDate.invalid

/-- The function `parseAirDate` (src/backend/index.js lines 12-19): split on the space
character; anything but exactly three parts yields null (`none`); otherwise
build "D Mon 20YY" and hand it to `new Date`. -/
def parseAirDate (dateStr : String) : Option JsDate :=
  let parts := jsSplit ' ' dateStr
  if parts.length ≠ 3 then none
  else
    let day := parts.getD 0 ""
    let month := parts.getD 1 ""
    let year := "20" ++ parts.getD 2 ""
    some (jsNewDate (day ++ " " ++ month ++ " " ++ year))

/-- C8: air-date parsing returns null whenever splitting on the space
separator does not give exactly three tokens; a non-null valid date is never
an arbitrary default, its day, month and year all being read off the
whitespace words of the string built from the three tokens (the year as
20YY); and "13 Jan 15" parses to 2015-01-13. -/
theorem air_date_parsing_spec (s : String) :
    ((jsSplit ' ' s).length ≠ 3 → parseAirDate s = none) ∧
    parseAirDate "13 Jan 15" = some (JsDate.valid 2015 1 13) ∧
    (∀ y m d, parseAirDate s = some (JsDate.valid y m d) →
      ∃ p1 p2 p3 w1 w2 w3,
        jsSplit ' ' s = [p1, p2, p3] ∧
        wordsOf (p1 ++ " " ++ p2 ++ " " ++ ("20" ++ p3)).toList = [w1, w2, w3] ∧
        w1.all Char.isDigit = true ∧ w3.all Char.isDigit = true ∧
        monthOfName w2 = some m ∧ d = charsVal w1 ∧ y = charsVal w3 ∧
        1 ≤ d ∧ d ≤ 31) := by
  refine ⟨?_, by decide, ?_⟩
  · intro h
    simp only [parseAirDate, if_pos h]
  · intro y m d h
    by_cases hl : (jsSplit ' ' s).length = 3
    · obtain ⟨p1, p2, p3, hp⟩ := List.length_eq_three.mp hl
      refine ⟨p1, p2, p3, ?_⟩
      simp only [parseAirDate, hp] at h
      simp only [List.length_cons, List.length_nil, if_neg (by omega : ¬ (2 + 1 ≠ 3))] at h
      simp only [List.getD, List.get?_cons_zero, List.get?_cons_succ, Option.getD_some] at h
      unfold jsNewDate at h
      rcases hw : wordsOf (p1 ++ " " ++ p2 ++ " " ++ ("20" ++ p3)).toList with
        _ | ⟨w1, _ | ⟨w2, _ | ⟨w3, _ | _⟩⟩⟩ <;> rw [hw] at h <;>
        simp only [Option.some.injEq] at h
      · exact JsDate.noConfusion h
      · exact JsDate.noConfusion h
      · exact JsDate.noConfusion h
      · refine ⟨w1, w2, w3, hp, ?_⟩
        rcases hm : monthOfName w2 with _ | mv <;> rw [hm] at h
        · exact JsDate.noConfusion h
        · split_ifs at h with hcond
          obtain ⟨hd1, _, hy1, _, hd2, hd3⟩ := hcond
          cases h
          exact ⟨rfl, hd1, hy1, rfl, rfl, rfl, hd2, hd3⟩
      · exact JsDate.noConfusion h
    · exfalso
      simp only [parseAirDate] at h
      rw [if_pos hl] at h
      cases h

/-! ## Episode-number regexes of the guide parser

`/S(\d+)\..*-(\d+)/` (specials pattern) and `/(\d+)-(\d+)/` (regular
pattern), with JavaScript leftmost-match and greedy/backtracking semantics,
plus `/Season (\d+)/` for the header and `/title\/(tt\d+)/` for the IMDB id. -/

/-- Leftmost match of `/(\d+)-(\d+)/`: the two captured numbers. -/
def regularCapture : List Char → Option (Nat × Nat)
  | [] => none
  | c :: cs =>
    if c.isDigit then
      match (c :: cs).dropWhile Char.isDigit with
      | '-' :: a2 =>
        let run2 := a2.takeWhile Char.isDigit
        if run2.isEmpty then regularCapture cs
        else some (charsVal ((c :: cs).takeWhile Char.isDigit), charsVal run2)
      | _ => regularCapture cs
    else regularCapture cs

/-- The digits after the last `-` that is followed by at least one digit
(the backtracking of the greedy `.*` in `/S(\d+)\..*-(\d+)/`). -/
def lastDashDigits : List Char → Option (List Char)
  | [] => none
  | '-' :: rest =>
    (match lastDashDigits rest with
     | some r => some r
     | none =>
       let run := rest.takeWhile Char.isDigit
       if run.isEmpty then none else some run)
  | _ :: rest => lastDashDigits rest

/-- Leftmost match of `/S(\d+)\..*-(\d+)/`: the two captured numbers. -/
def specialCapture : List Char → Option (Nat × Nat)
  | [] => none
  | c :: cs =>
    if c = 'S' then
      let d1 := cs.takeWhile Char.isDigit
      if d1.isEmpty then specialCapture cs
      else
        match cs.dropWhile Char.isDigit with
        | '.' :: tail =>
          (match lastDashDigits tail with
           | some d2 => some (charsVal d1, charsVal d2)
           | none => specialCapture cs)
        | _ => specialCapture cs
    else specialCapture cs

/-- Leftmost match of `/Season (\d+)/`: the captured number. -/
def seasonCapture : List Char → Option Nat
  | [] => none
  | c :: cs =>
    if ("Season ".toList).isPrefixOf (c :: cs) then
      let run := ((c :: cs).drop 7).takeWhile Char.isDigit
      if run.isEmpty then seasonCapture cs else some (charsVal run)
    else seasonCapture cs

/-- Leftmost match of `/title\/(tt\d+)/`: the captured IMDB id. -/
def titleIdCapture : List Char → Option (List Char)
  | [] => none
  | c :: cs =>
    if ("title/tt".toList).isPrefixOf (c :: cs) then
      let ds := ((c :: cs).drop 8).takeWhile Char.isDigit
      if ds.isEmpty then titleIdCapture cs else some ('t' :: 't' :: ds)
    else titleIdCapture cs

/-- Greedy match of `/(.*)\s\(/`: the prefix before the last
whitespace-then-parenthesis (the title texts are single-line, so the
line-terminator restriction on `.` plays no role). -/
def lastWsParen : List Char → Option (List Char)
  | [] => none
  | c :: cs =>
    match lastWsParen cs with
    | some g => some (c :: g)
    | none =>
      match cs with
      | '(' :: _ => if jsIsWs c then some [] else none
      | _ => none

/-- The leading digit run of a list as a number, if non-empty. -/
def parseIntDigits (l : List Char) : Option Nat :=
  let run := l.takeWhile Char.isDigit
  if run.isEmpty then none else some (charsVal run)

/-- Embedding of `parseInt(s, 10)`: skip leading whitespace, optional sign, leading
digits; `none` models NaN. -/
def jsParseInt (s : String) : Option Int :=
  match s.toList.dropWhile jsIsWs with
  | '-' :: rest => (parseIntDigits rest).map (fun n => -(n : Int))
  | '+' :: rest => (parseIntDigits rest).map (fun n => (n : Int))
  | l => (parseIntDigits l).map (fun n => (n : Int))

/-! ## Persistent data model (schema of initDb, part_000 lines 233-312) -/

/-- A JavaScript number that may be NaN (`none`). -/
abbrev JsNum := Option Int

/-- Embedding of `getFullYear()`: NaN on Invalid Date. -/
def jsGetFullYear : JsDate → JsNum
  | JsDate.invalid => none
  | JsDate.valid y _ _ => some (y : Int)

structure GenreRow where
  id : Nat
  name : String
deriving DecidableEq, Repr

structure ActorRow where
  id : Nat
  name : String
deriving DecidableEq, Repr

structure MediaRow where
  id : Nat
  imdb_id : String
  title : String
  type : String
  poster_url : Option String
  description : String
  year : Option JsNum
  rating : String
  is_watched : Bool
  epguides_url : Option String
deriving DecidableEq, Repr

structure SeasonRow where
  id : Nat
  media_id : Nat
  season_number : Nat
  year : Option JsNum
  is_watched : Bool
deriving DecidableEq, Repr

structure EpisodeRow where
  id : Nat
  season_id : Nat
  episode_number : Nat
  title : String
  air_date : Option JsDate
  is_watched : Bool
deriving DecidableEq, Repr

/-- The PostgreSQL database: the rows of each table and the next value of
each SERIAL id sequence. -/
structure DbState where
  media : List MediaRow
  genres : List GenreRow
  mediaGenres : List (Nat × Nat)
  actors : List ActorRow
  mediaActors : List (Nat × Nat)
  seasons : List SeasonRow
  episodes : List EpisodeRow
  nextMediaId : Nat
  nextGenreId : Nat
  nextActorId : Nat
  nextSeasonId : Nat
  nextEpisodeId : Nat
deriving DecidableEq, Repr

/-! ## Guide documents

An epguides table-row stream is modelled at the cheerio boundary: a `Row` is
a `tr` element, a `Cell` one of its `td` cells, carrying whether it matches
`td.bold[colspan='4']`, its text content and the text content of its `a`
descendants (HTML-entity decoding by `he.decode` is part of text extraction
and already applied in these fields). -/

structure Cell where
  bold4 : Bool
  text : String
  anchorText : String
deriving DecidableEq, Repr

structure Row where
  cells : List Cell
deriving DecidableEq, Repr

/-- Embedding of `row.find("td.bold[colspan='4']")` followed by `.length` / `.text()`:
the concatenated text of the matching cells, if any. -/
def seasonHeaderText (r : Row) : Option String :=
  let hs := r.cells.filter (fun c => c.bold4)
  if hs.isEmpty then none else some (String.join (hs.map (fun c => c.text)))

/-- The template-literal key `` `${season}-${episode}` `` used for the
watched-episode snapshot set. -/
def seKey (s e : Nat) : List Char := natToChars s ++ '-' :: natToChars e

theorem append_sep_inj :
    ∀ xs ys u v : List Char, (∀ c ∈ xs, c.isDigit = true) → (∀ c ∈ ys, c.isDigit = true) →
      xs ++ '-' :: u = ys ++ '-' :: v → xs = ys ∧ u = v := by
  intro xs
  induction xs with
  | nil =>
    intro ys u v _ hys h
    cases ys with
    | nil => simpa using h
    | cons b bs =>
      simp only [List.nil_append, List.cons_append, List.cons.injEq] at h
      exfalso
      have : b = '-' := h.1.symm
      have hb := hys b (List.mem_cons_self b bs)
      rw [this] at hb
      exact absurd hb (by decide)
  | cons a as ih =>
    intro ys u v hxs hys h
    cases ys with
    | nil =>
      simp only [List.cons_append, List.nil_append, List.cons.injEq] at h
      exfalso
      have ha := hxs a (List.mem_cons_self a as)
      rw [h.1] at ha
      exact absurd ha (by decide)
    | cons b bs =>
      simp only [List.cons_append, List.cons.injEq] at h
      obtain ⟨hab, htail⟩ := h
      have := ih bs u v (fun c hc => hxs c (List.mem_cons_of_mem a hc))
        (fun c hc => hys c (List.mem_cons_of_mem b hc)) htail
      exact ⟨by rw [hab, this.1], this.2⟩

theorem seKey_inj {a b c d : Nat} (h : seKey a b = seKey c d) : a = c ∧ b = d := by
  unfold seKey at h
  have := append_sep_inj (natToChars a) (natToChars c) (natToChars b) (natToChars d)
    (natToChars_digits a) (natToChars_digits c) h
  exact ⟨natToChars_inj this.1, natToChars_inj this.2⟩

/-! ## The guide-parsing/insertion loop

This is the `for (const row of rows)` loop that appears twice in the
backend, at part_000 lines 472-528 (initial ingest; episode INSERT without
an is_watched column, defaulting to FALSE, modelled by `watched = none`) and
lines 912-969 (re-sync; is_watched from the snapshot set, modelled by
`watched = some keys`). -/

/-- Embedding of `Map.prototype.get` on an insertion-ordered association list. -/
def jsMapGet (m : List (Nat × Nat)) (k : Nat) : Option Nat :=
  (m.find? (fun p => p.1 == k)).map (fun p => p.2)

/-- Embedding of `Map.prototype.set` on an insertion-ordered association list. -/
def jsMapSet (m : List (Nat × Nat)) (k v : Nat) : List (Nat × Nat) :=
  if (m.find? (fun p => p.1 == k)).isSome then
    m.map (fun p => if p.1 == k then (k, v) else p)
  else m ++ [(k, v)]

/-- Embedding of `String.prototype.includes` on character lists. -/
def hasSubstring (pat : List Char) : List Char → Bool
  | [] => pat.isEmpty
  | c :: cs => pat.isPrefixOf (c :: cs) || hasSubstring pat cs

/-- Loop state: the running season counter, the season-number → season-id
map, and the working database of the surrounding transaction. -/
structure GuideSt where
  currentSeason : Nat
  seasonsMap : List (Nat × Nat)
  db : DbState
deriving DecidableEq, Repr

/-- The `if (!seasonIdForEpisode)` branch: insert a season row on first
encounter of its number, record it in the map, and return its fresh id. -/
def yearForSeasonOf (airDate : Option JsDate) : Option JsNum :=
  match airDate with
  | none => none
  | some jd => some (jsGetFullYear jd)

def insertNewSeason (mediaId seasonForEpisode : Nat) (airDate : Option JsDate)
    (st : GuideSt) : Nat × GuideSt :=
  let yearForSeason := yearForSeasonOf airDate
  let sid := st.db.nextSeasonId
  (sid,
    { st with
      db := { st.db with
        seasons := st.db.seasons ++ [⟨sid, mediaId, seasonForEpisode, yearForSeason, false⟩],
        nextSeasonId := sid + 1 },
      seasonsMap := jsMapSet st.seasonsMap seasonForEpisode sid })

/-- The tail both pattern branches share: look up or insert the season row
(the map value is re-used only when truthy, i.e. present and non-zero), then
insert the episode row, watched per the snapshot set when one is given. -/
def insertEpisode (mediaId : Nat) (watched : Option (List (List Char)))
    (seasonForEpisode episodeInSeason : Nat) (airDateStr titleFromFile : String)
    (st : GuideSt) : GuideSt :=
  let airDate := parseAirDate airDateStr
  let step :=
    match jsMapGet st.seasonsMap seasonForEpisode with
    | some i =>
      if i ≠ 0 then (i, st) else insertNewSeason mediaId seasonForEpisode airDate st
    | none => insertNewSeason mediaId seasonForEpisode airDate st
  let isWatched :=
    match watched with
    | none => false
    | some ks => ks.contains (seKey seasonForEpisode episodeInSeason)
  { step.2 with
    db := { step.2.db with
      episodes := step.2.db.episodes ++
        [⟨step.2.db.nextEpisodeId, step.1, episodeInSeason, titleFromFile, airDate, isWatched⟩],
      nextEpisodeId := step.2.db.nextEpisodeId + 1 } }

/-- One iteration of the row loop: season headers move the running counter,
four-column data rows are matched against the specials pattern then the
regular pattern (the JS guard `currentSeason >= 0` always holds, the counter
being 0 or a parsed number). -/
def processRow (mediaId : Nat) (watched : Option (List (List Char)))
    (st : GuideSt) (row : Row) : GuideSt :=
  match seasonHeaderText row with
  | some htext =>
    (match seasonCapture htext.toList with
     | some n => { st with currentSeason := n }
     | none =>
       if hasSubstring ("Specials".toList) htext.toList then { st with currentSeason := 0 }
       else st)
  | none =>
    match row.cells with
    | [_, c1, c2, c3] =>
      let episodeNumberStr := jsTrim c1.text
      (match specialCapture episodeNumberStr.toList with
       | some (sNum, eNum) =>
         insertEpisode mediaId watched sNum eNum (jsTrim c2.text) (jsTrim c3.anchorText) st
       | none =>
         match regularCapture episodeNumberStr.toList with
         | some (sNum, eNum) =>
           if st.currentSeason ≠ 0 ∧ sNum ≠ st.currentSeason then st
           else
             insertEpisode mediaId watched sNum eNum (jsTrim c2.text) (jsTrim c3.anchorText) st
         | none => st)
    | _ => st

/-- The whole row loop. -/
def processGuide (mediaId : Nat) (watched : Option (List (List Char)))
    (st : GuideSt) (rows : List Row) : GuideSt :=
  rows.foldl (processRow mediaId watched) st

/-- The (season number, episode number) key a row contributes and the new
running counter — the pure shadow of `processRow`, used to state which keys
the freshly parsed guide contains. -/
def rowStep (cur : Nat) (row : Row) : Nat × Option (Nat × Nat) :=
  match seasonHeaderText row with
  | some htext =>
    (match seasonCapture htext.toList with
     | some n => (n, none)
     | none =>
       if hasSubstring ("Specials".toList) htext.toList then (0, none) else (cur, none))
  | none =>
    match row.cells with
    | [_, c1, _, _] =>
      (match specialCapture (jsTrim c1.text).toList with
       | some (sNum, eNum) => (cur, some (sNum, eNum))
       | none =>
         match regularCapture (jsTrim c1.text).toList with
         | some (sNum, eNum) =>
           if cur ≠ 0 ∧ sNum ≠ cur then (cur, none) else (cur, some (sNum, eNum))
         | none => (cur, none))
    | _ => (cur, none)

/-- The keys of the episodes a freshly parsed guide yields, starting from
running counter `cur`. -/
def guideKeysFrom (cur : Nat) : List Row → List (Nat × Nat)
  | [] => []
  | r :: rs =>
    (match (rowStep cur r).2 with
     | some p => [p]
     | none => []) ++ guideKeysFrom (rowStep cur r).1 rs

/-- The keys of the episodes a freshly parsed guide yields. -/
def guideKeys (rows : List Row) : List (Nat × Nat) := guideKeysFrom 0 rows

/-! ## Re-sync (POST /api/media/:id/rescrape, part_000 lines 858-981) -/

/-- JavaScript truthiness of a nullable string. -/
def strTruthy : Option String → Bool
  | none => false
  | some s => !(s == "")

/-- Embedding of `a || b` on nullable strings. -/
def jsOrStr (a b : Option String) : Option String := if strTruthy a then a else b

/-- The function `getEpguidesShowUrl` (part_000 lines 218-222). -/
def getEpguidesShowUrl (imdbTitle : String) : String :=
  "https://epguides.com/" ++ normalizeTitleForEpguides imdbTitle ++ "/"

/-- Embedding of `UPDATE media SET epguides_url = $1 WHERE id = $2`. -/
def setEpguidesUrl (db : DbState) (mediaId : Nat) (url : String) : DbState :=
  { db with media := db.media.map (fun m =>
      if m.id == mediaId then { m with epguides_url := some url } else m) }

/-- Lines 875-882: `customUrl || media.epguides_url`, deriving and caching
the slug URL when that is falsy, re-caching when a custom URL was given. -/
def resolveEpguidesUrl (db : DbState) (mediaId : Nat) (media : MediaRow)
    (customUrl : Option String) : String × DbState :=
  match jsOrStr customUrl media.epguides_url with
  | none =>
    let url := getEpguidesShowUrl media.title
    (url, setEpguidesUrl db mediaId url)
  | some u =>
    if u == "" then
      let url := getEpguidesShowUrl media.title
      (url, setEpguidesUrl db mediaId url)
    else if strTruthy customUrl then (u, setEpguidesUrl db mediaId u)
    else (u, db)

/-- The watched-episode snapshot (lines 885-891): the `${season}-${episode}`
keys of the media item's watched episodes. -/
def watchedKeysOf (db : DbState) (mediaId : Nat) : List (List Char) :=
  (db.seasons.filter (fun s => s.media_id == mediaId)).flatMap (fun s =>
    (db.episodes.filter (fun e => e.season_id == s.id && e.is_watched)).map (fun e =>
      seKey s.season_number e.episode_number))

/-- The snapshot as plain (season number, episode number) pairs — the form
the specification speaks of. -/
def watchedPairsOf (db : DbState) (mediaId : Nat) : List (Nat × Nat) :=
  (db.seasons.filter (fun s => s.media_id == mediaId)).flatMap (fun s =>
    (db.episodes.filter (fun e => e.season_id == s.id && e.is_watched)).map (fun e =>
      (s.season_number, e.episode_number)))

/-- Lines 894-897: delete the media item's episode rows (those whose season
belongs to it), then its season rows. -/
def deleteEpisodeTree (db : DbState) (mediaId : Nat) : DbState :=
  let seasonIds := (db.seasons.filter (fun s => s.media_id == mediaId)).map (fun s => s.id)
  { db with
    episodes := db.episodes.filter (fun e => !(seasonIds.contains e.season_id)),
    seasons := db.seasons.filter (fun s => !(s.media_id == mediaId)) }

structure RescrapeResult where
  status : Nat
  db : DbState
deriving DecidableEq, Repr

/-- POST /api/media/:id/rescrape. All writes between BEGIN and COMMIT act on
a working copy; the catch block issues ROLLBACK, so the error exit returns
the original database. The guide fetch result is passed in (`Except.error`
models a failed axios request). -/
def rescrape (db : DbState) (mediaId : Nat) (customUrl : Option String)
    (fetchGuide : Except Unit (List Row)) : RescrapeResult :=
  match db.media.find? (fun m => m.id == mediaId) with
  | none => ⟨404, db⟩
  | some media =>
    if media.type ≠ "tv_show" then ⟨400, db⟩
    else
      let db1 := (resolveEpguidesUrl db mediaId media customUrl).2
      let watchedEpisodes := watchedKeysOf db1 mediaId
      let db2 := deleteEpisodeTree db1 mediaId
      match fetchGuide with
      | Except.error _ => ⟨500, db⟩
      | Except.ok rows =>
        ⟨204, (processGuide mediaId (some watchedEpisodes) ⟨0, [], db2⟩ rows).db⟩

/-! ## Invariants for the re-sync proofs -/

/-- Database well-formedness guaranteed by the SERIAL sequences and primary
keys: row ids are below the sequence counters (and season ids are unique and
positive). -/
def DbWF (db : DbState) : Prop :=
  (∀ s ∈ db.seasons, s.id < db.nextSeasonId) ∧
  (∀ e ∈ db.episodes, e.season_id < db.nextSeasonId) ∧
  1 ≤ db.nextSeasonId ∧
  (db.seasons.map (fun s => s.id)).Nodup

/-- Loop-state well-formedness for the guide loop run on behalf of
`mediaId`: database well-formedness plus the season-map invariant (every
entry points at a season row of this media with the entry's key as its
season number). -/
def StWF (mediaId : Nat) (st : GuideSt) : Prop :=
  (∀ s ∈ st.db.seasons, s.id < st.db.nextSeasonId) ∧
  (∀ e ∈ st.db.episodes, e.season_id < st.db.nextSeasonId) ∧
  1 ≤ st.db.nextSeasonId ∧
  (st.db.seasons.map (fun s => s.id)).Nodup ∧
  (∀ p ∈ st.seasonsMap, ∃ s ∈ st.db.seasons,
    s.id = p.2 ∧ s.season_number = p.1 ∧ s.media_id = mediaId)

theorem jsMapGet_mem {m : List (Nat × Nat)} {k v : Nat} (h : jsMapGet m k = some v) :
    (k, v) ∈ m := by
  unfold jsMapGet at h
  cases hf : m.find? (fun p => p.1 == k) with
  | none => rw [hf] at h; cases h
  | some p =>
    rw [hf] at h
    simp only [Option.map, Option.some.injEq] at h
    have hmem := List.mem_of_find?_eq_some hf
    have hkey := List.find?_some hf
    have h1 : p.1 = k := by simpa using hkey
    cases p with
    | mk a b =>
      simp only at h1 h
      rw [h1, h] at hmem
      exact hmem

theorem jsMapSet_mem {m : List (Nat × Nat)} {k v : Nat} (q : Nat × Nat)
    (hq : q ∈ jsMapSet m k v) : q = (k, v) ∨ (q ∈ m ∧ q.1 ≠ k) := by
  unfold jsMapSet at hq
  by_cases hf : (m.find? (fun p => p.1 == k)).isSome
  · rw [if_pos hf] at hq
    obtain ⟨p, hp, hpq⟩ := List.mem_map.mp hq
    by_cases hk : p.1 == k
    · left
      rw [if_pos hk] at hpq
      exact hpq.symm
    · right
      rw [if_neg hk] at hpq
      subst hpq
      exact ⟨hp, by simpa using hk⟩
  · rw [if_neg hf] at hq
    rcases List.mem_append.mp hq with h1 | h2
    · right
      refine ⟨h1, ?_⟩
      rw [List.find?_isSome] at hf
      push_neg at hf
      have := hf q h1
      simpa using this
    · left
      simpa using h2

/-- C2: if the guide fetch fails during a re-sync of a series, the whole
transaction is rolled back: the caller gets a 500 and the database — in
particular the episode tree — is exactly the pre-re-sync one. -/
theorem resync_rollback_spec (db : DbState) (mediaId : Nat) (customUrl : Option String)
    (m : MediaRow) (hm : db.media.find? (fun r => r.id == mediaId) = some m)
    (ht : m.type = "tv_show") :
    rescrape db mediaId customUrl (Except.error ()) = ⟨500, db⟩ := by
  simp only [rescrape, hm]
  rw [if_neg (by simp [ht])]

/-- Fixtures: a one-series database with one season and one watched episode. -/
def exMedia : MediaRow :=
  ⟨1, "tt0903747", "Show", "tv_show", none, "", none, "8.1", false, none⟩

def exSeason : SeasonRow := ⟨1, 1, 1, none, false⟩

def exEpisode : EpisodeRow := ⟨1, 1, 1, "Pilot", none, true⟩

def exDb : DbState := ⟨[exMedia], [], [], [], [], [exSeason], [exEpisode], 2, 1, 1, 2, 2⟩

theorem resync_rollback_witness :
    rescrape exDb 1 none (Except.error ()) = ⟨500, exDb⟩ :=
  resync_rollback_spec exDb 1 none exMedia (by decide) (by decide)

/-- What one episode insertion guarantees: well-formedness is preserved, the
season list grows only by rows of this media with fresh ids, and exactly one
episode row is appended, watched iff its key is in the snapshot set, linked
to a season row carrying the insert's season number. -/
def InsertOutcome (mediaId : Nat) (ks : List (List Char)) (sNum eNum : Nat)
    (st st1 : GuideSt) : Prop :=
  StWF mediaId st1 ∧
  st1.currentSeason = st.currentSeason ∧
  st.db.nextSeasonId ≤ st1.db.nextSeasonId ∧
  (∃ newS, st1.db.seasons = st.db.seasons ++ newS ∧
    ∀ s ∈ newS, s.media_id = mediaId ∧ st.db.nextSeasonId ≤ s.id) ∧
  (∃ eRow, st1.db.episodes = st.db.episodes ++ [eRow] ∧
    eRow.episode_number = eNum ∧
    eRow.is_watched = ks.contains (seKey sNum eNum) ∧
    ∃ s ∈ st1.db.seasons, s.id = eRow.season_id ∧ s.season_number = sNum ∧
      s.media_id = mediaId)

theorem insertEpisode_fresh (mediaId : Nat) (ks : List (List Char))
    (sNum eNum : Nat) (ad ttl : String) (st : GuideSt) (hwf : StWF mediaId st)
    (hstep : insertEpisode mediaId (some ks) sNum eNum ad ttl st =
      { st with
        seasonsMap := jsMapSet st.seasonsMap sNum st.db.nextSeasonId,
        db := { st.db with
          seasons := st.db.seasons ++
            [⟨st.db.nextSeasonId, mediaId, sNum, yearForSeasonOf (parseAirDate ad), false⟩],
          nextSeasonId := st.db.nextSeasonId + 1,
          episodes := st.db.episodes ++
            [⟨st.db.nextEpisodeId, st.db.nextSeasonId, eNum, ttl, parseAirDate ad,
              ks.contains (seKey sNum eNum)⟩],
          nextEpisodeId := st.db.nextEpisodeId + 1 } }) :
    InsertOutcome mediaId ks sNum eNum st
      (insertEpisode mediaId (some ks) sNum eNum ad ttl st) := by
  obtain ⟨hwfS, hwfE, hwfN, hwfNd, hwfM⟩ := hwf
  unfold InsertOutcome
  rw [hstep]
  refine ⟨⟨?_, ?_, ?_, ?_, ?_⟩, rfl, ?_,
    ⟨[⟨st.db.nextSeasonId, mediaId, sNum, yearForSeasonOf (parseAirDate ad), false⟩],
      rfl, ?_⟩,
    ⟨_, rfl, rfl, rfl,
      ⟨st.db.nextSeasonId, mediaId, sNum, yearForSeasonOf (parseAirDate ad), false⟩,
      List.mem_append.mpr (Or.inr (List.mem_singleton.mpr rfl)), rfl, rfl, rfl⟩⟩
  · intro s hs
    rcases List.mem_append.mp hs with h1 | h2
    · have := hwfS s h1
      show s.id < st.db.nextSeasonId + 1
      omega
    · simp only [List.mem_singleton] at h2
      subst h2
      show st.db.nextSeasonId < st.db.nextSeasonId + 1
      omega
  · intro e he
    rcases List.mem_append.mp he with h1 | h2
    · have := hwfE e h1
      show e.season_id < st.db.nextSeasonId + 1
      omega
    · simp only [List.mem_singleton] at h2
      subst h2
      show st.db.nextSeasonId < st.db.nextSeasonId + 1
      omega
  · show 1 ≤ st.db.nextSeasonId + 1
    omega
  · show (List.map (fun s => s.id) (st.db.seasons ++
      [⟨st.db.nextSeasonId, mediaId, sNum, yearForSeasonOf (parseAirDate ad), false⟩])).Nodup
    rw [List.map_append, List.nodup_append]
    refine ⟨hwfNd, by simp, ?_⟩
    intro x hx hy
    simp only [List.map_cons, List.map_nil, List.mem_singleton] at hy
    obtain ⟨s, hs, hsx⟩ := List.mem_map.mp hx
    have := hwfS s hs
    omega
  · intro p hp
    rcases jsMapSet_mem p hp with h1 | h2
    · subst h1
      exact ⟨⟨st.db.nextSeasonId, mediaId, sNum, yearForSeasonOf (parseAirDate ad), false⟩,
        List.mem_append.mpr (Or.inr (List.mem_singleton.mpr rfl)), rfl, rfl, rfl⟩
    · obtain ⟨s, hs, hsid, hsnum, hsmedia⟩ := hwfM p h2.1
      exact ⟨s, List.mem_append.mpr (Or.inl hs), hsid, hsnum, hsmedia⟩
  · show st.db.nextSeasonId ≤ st.db.nextSeasonId + 1
    omega
  · intro s hs
    simp only [List.mem_singleton] at hs
    subst hs
    exact ⟨rfl, Nat.le_refl _⟩

theorem insertEpisode_spec (mediaId : Nat) (ks : List (List Char))
    (sNum eNum : Nat) (ad ttl : String) (st : GuideSt) (hwf : StWF mediaId st) :
    InsertOutcome mediaId ks sNum eNum st
      (insertEpisode mediaId (some ks) sNum eNum ad ttl st) := by
  cases hg : jsMapGet st.seasonsMap sNum with
  | some i =>
    by_cases hi : i ≠ 0
    · obtain ⟨hwfS, hwfE, hwfN, hwfNd, hwfM⟩ := hwf
      have hstep : insertEpisode mediaId (some ks) sNum eNum ad ttl st =
          { st with db := { st.db with
              episodes := st.db.episodes ++
                [⟨st.db.nextEpisodeId, i, eNum, ttl, parseAirDate ad,
                  ks.contains (seKey sNum eNum)⟩],
              nextEpisodeId := st.db.nextEpisodeId + 1 } } := by
        unfold insertEpisode
        simp [hg, hi]
      obtain ⟨s0, hs0mem, hs0id, hs0num, hs0media⟩ := hwfM (sNum, i) (jsMapGet_mem hg)
      simp only at hs0id hs0num
      unfold InsertOutcome
      rw [hstep]
      refine ⟨⟨hwfS, ?_, hwfN, hwfNd, hwfM⟩, rfl, Nat.le_refl _,
        ⟨[], by simp, by simp⟩, ⟨_, rfl, rfl, rfl, s0, hs0mem, hs0id, hs0num, hs0media⟩⟩
      intro e he
      rcases List.mem_append.mp he with h1 | h2
      · exact hwfE e h1
      · simp only [List.mem_singleton] at h2
        subst h2
        show i < st.db.nextSeasonId
        rw [← hs0id]
        exact hwfS s0 hs0mem
    · push_neg at hi
      subst hi
      refine insertEpisode_fresh mediaId ks sNum eNum ad ttl st hwf ?_
      unfold insertEpisode insertNewSeason
      simp [hg]
  | none =>
    refine insertEpisode_fresh mediaId ks sNum eNum ad ttl st hwf ?_
    unfold insertEpisode insertNewSeason
    simp [hg]

/-- What one loop iteration guarantees, relative to the key its row emits
(per `rowStep`): rows emitting no key leave the tree untouched; rows
emitting a key behave as one episode insertion for that key. -/
def RowOutcome (mediaId : Nat) (ks : List (List Char)) (st st1 : GuideSt)
    (row : Row) : Prop :=
  StWF mediaId st1 ∧
  st1.currentSeason = (rowStep st.currentSeason row).1 ∧
  st.db.nextSeasonId ≤ st1.db.nextSeasonId ∧
  (match (rowStep st.currentSeason row).2 with
   | none => st1.db.seasons = st.db.seasons ∧ st1.db.episodes = st.db.episodes
   | some (sNum, eNum) =>
     (∃ newS, st1.db.seasons = st.db.seasons ++ newS ∧
       ∀ s ∈ newS, s.media_id = mediaId ∧ st.db.nextSeasonId ≤ s.id) ∧
     (∃ eRow, st1.db.episodes = st.db.episodes ++ [eRow] ∧
       eRow.episode_number = eNum ∧
       eRow.is_watched = ks.contains (seKey sNum eNum) ∧
       ∃ s ∈ st1.db.seasons, s.id = eRow.season_id ∧ s.season_number = sNum ∧
         s.media_id = mediaId))

theorem processRow_case (mediaId : Nat) (ks : List (List Char)) (st : GuideSt)
    (row : Row) (hwf : StWF mediaId st) :
    RowOutcome mediaId ks st (processRow mediaId (some ks) st row) row := by
  unfold RowOutcome processRow rowStep
  cases hh : seasonHeaderText row with
  | some htext =>
    cases hc : seasonCapture htext.toList with
    | some n =>
      simp only [hh, hc]
      refine ⟨hwf, ?_, ?_, ?_, ?_⟩ <;> trivial
    | none =>
      cases hsp2 : hasSubstring ("Specials".toList) htext.toList with
      | true =>
        simp only [hh, hc, hsp2]
        refine ⟨hwf, ?_, ?_, ?_, ?_⟩ <;> trivial
      | false =>
        simp only [hh, hc, hsp2]
        refine ⟨hwf, ?_, ?_, ?_, ?_⟩ <;> trivial
  | none =>
    rcases hcells : row.cells with _ | ⟨c0, _ | ⟨c1, _ | ⟨c2, _ | ⟨c3, _ | rest⟩⟩⟩⟩
    · simp only [hh, hcells]
      refine ⟨hwf, ?_, ?_, ?_, ?_⟩ <;> trivial
    · simp only [hh, hcells]
      refine ⟨hwf, ?_, ?_, ?_, ?_⟩ <;> trivial
    · simp only [hh, hcells]
      refine ⟨hwf, ?_, ?_, ?_, ?_⟩ <;> trivial
    · simp only [hh, hcells]
      refine ⟨hwf, ?_, ?_, ?_, ?_⟩ <;> trivial
    · -- exactly four columns
      cases hsp : specialCapture (jsTrim c1.text).toList with
      | some p =>
        obtain ⟨sNum, eNum⟩ := p
        simp only [hh, hcells, hsp]
        have out := insertEpisode_spec mediaId ks sNum eNum (jsTrim c2.text)
          (jsTrim c3.anchorText) st hwf
        unfold InsertOutcome at out
        obtain ⟨o1, o2, o3, o4, o5⟩ := out
        exact ⟨o1, o2, o3, o4, o5⟩
      | none =>
        cases hrg : regularCapture (jsTrim c1.text).toList with
        | some p =>
          obtain ⟨sNum, eNum⟩ := p
          by_cases hskip : st.currentSeason ≠ 0 ∧ sNum ≠ st.currentSeason
          · simp only [hh, hcells, hsp, hrg, if_pos hskip]
            refine ⟨hwf, ?_, ?_, ?_, ?_⟩ <;> trivial
          · simp only [hh, hcells, hsp, hrg, if_neg hskip]
            have out := insertEpisode_spec mediaId ks sNum eNum (jsTrim c2.text)
              (jsTrim c3.anchorText) st hwf
            unfold InsertOutcome at out
            obtain ⟨o1, o2, o3, o4, o5⟩ := out
            exact ⟨o1, o2, o3, o4, o5⟩
        | none =>
          simp only [hh, hcells, hsp, hrg]
          refine ⟨hwf, ?_, ?_, ?_, ?_⟩ <;> trivial
    · simp only [hh, hcells]
      refine ⟨hwf, ?_, ?_, ?_, ?_⟩ <;> trivial

/-- Master invariant of the guide loop: the run appends only season rows of
this media with fresh ids, and every appended episode is watched exactly
when the key given by its season row is in the snapshot set, that key being
among the keys of the parsed guide. -/
theorem processGuide_master (mediaId : Nat) (ks : List (List Char)) :
    ∀ (rows : List Row) (st : GuideSt), StWF mediaId st →
      StWF mediaId (processGuide mediaId (some ks) st rows) ∧
      st.db.nextSeasonId ≤ (processGuide mediaId (some ks) st rows).db.nextSeasonId ∧
      ∃ newS newE,
        (processGuide mediaId (some ks) st rows).db.seasons = st.db.seasons ++ newS ∧
        (processGuide mediaId (some ks) st rows).db.episodes = st.db.episodes ++ newE ∧
        (∀ s ∈ newS, s.media_id = mediaId ∧ st.db.nextSeasonId ≤ s.id) ∧
        (∀ e ∈ newE, ∀ s ∈ (processGuide mediaId (some ks) st rows).db.seasons,
          e.season_id = s.id →
            e.is_watched = ks.contains (seKey s.season_number e.episode_number) ∧
            (s.season_number, e.episode_number) ∈ guideKeysFrom st.currentSeason rows) := by
  intro rows
  induction rows with
  | nil =>
    intro st hwf
    exact ⟨hwf, Nat.le_refl _, [], [], by simp [processGuide], by simp [processGuide],
      by simp, by simp⟩
  | cons r rs ih =>
    intro st hwf
    have hps : processGuide mediaId (some ks) st (r :: rs)
        = processGuide mediaId (some ks) (processRow mediaId (some ks) st r) rs := rfl
    rw [hps]
    have hrow := processRow_case mediaId ks st r hwf
    unfold RowOutcome at hrow
    obtain ⟨hw1, hcur1, hmono1, hmatch⟩ := hrow
    obtain ⟨hw2, hmono2, newS2, newE2, hseas2, heps2, hnewS2, hnewE2⟩ :=
      ih (processRow mediaId (some ks) st r) hw1
    cases hemit : (rowStep st.currentSeason r).2 with
    | none =>
      rw [hemit] at hmatch
      obtain ⟨hs1, he1⟩ := hmatch
      refine ⟨hw2, le_trans hmono1 hmono2, newS2, newE2, ?_, ?_, ?_, ?_⟩
      · rw [hseas2, hs1]
      · rw [heps2, he1]
      · intro s hs
        exact ⟨(hnewS2 s hs).1, le_trans hmono1 (hnewS2 s hs).2⟩
      · intro e he s hs heq
        have hres := hnewE2 e he s hs heq
        refine ⟨hres.1, ?_⟩
        have hkeys : guideKeysFrom st.currentSeason (r :: rs)
            = guideKeysFrom (rowStep st.currentSeason r).1 rs := by
          simp only [guideKeysFrom, hemit, List.nil_append]
        rw [hkeys, ← hcur1]
        exact hres.2
    | some p =>
      obtain ⟨sNum, eNum⟩ := p
      rw [hemit] at hmatch
      obtain ⟨⟨newS1, hseas1, hnewS1⟩, eRow, heps1, heN, hwatch,
        s0, hs0mem, hs0id, hs0num, hs0media⟩ := hmatch
      have hkeys : guideKeysFrom st.currentSeason (r :: rs)
          = (sNum, eNum) :: guideKeysFrom (rowStep st.currentSeason r).1 rs := by
        simp only [guideKeysFrom, hemit, List.singleton_append]
      refine ⟨hw2, le_trans hmono1 hmono2, newS1 ++ newS2, eRow :: newE2, ?_, ?_, ?_, ?_⟩
      · rw [hseas2, hseas1, List.append_assoc]
      · rw [heps2, heps1, List.append_assoc, List.singleton_append]
      · intro s hs
        rcases List.mem_append.mp hs with h1 | h2
        · exact hnewS1 s h1
        · exact ⟨(hnewS2 s h2).1, le_trans hmono1 (hnewS2 s h2).2⟩
      · intro e he s hs heq
        rcases List.mem_cons.mp he with he1 | he2
        · subst he1
          have hs0res : s0 ∈ (processGuide mediaId (some ks)
              (processRow mediaId (some ks) st r) rs).db.seasons := by
            rw [hseas2]
            exact List.mem_append_left _ hs0mem
          obtain ⟨w1, w2, w3, w4, w5⟩ := hw2
          have hss0 : s = s0 := by
            refine List.inj_on_of_nodup_map w4 hs hs0res ?_
            show s.id = s0.id
            rw [← heq, hs0id]
          have hsnum : s.season_number = sNum := by rw [hss0, hs0num]
          refine ⟨?_, ?_⟩
          · rw [hsnum, heN]
            exact hwatch
          · rw [hkeys, hsnum, heN]
            exact List.mem_cons_self _ _
        · have hres := hnewE2 e he2 s hs heq
          refine ⟨hres.1, ?_⟩
          rw [hkeys, ← hcur1]
          exact List.mem_cons_of_mem _ hres.2

theorem resolveEpguidesUrl_tree (db : DbState) (mediaId : Nat) (media : MediaRow)
    (customUrl : Option String) :
    ((resolveEpguidesUrl db mediaId media customUrl).2).seasons = db.seasons ∧
    ((resolveEpguidesUrl db mediaId media customUrl).2).episodes = db.episodes ∧
    ((resolveEpguidesUrl db mediaId media customUrl).2).nextSeasonId = db.nextSeasonId := by
  unfold resolveEpguidesUrl setEpguidesUrl
  rcases h : jsOrStr customUrl media.epguides_url with _ | u
  · exact ⟨rfl, rfl, rfl⟩
  · simp only
    split_ifs <;> exact ⟨rfl, rfl, rfl⟩

theorem watchedKeys_contains_iff (db : DbState) (mediaId a b : Nat) :
    (watchedKeysOf db mediaId).contains (seKey a b) = true ↔
      (a, b) ∈ watchedPairsOf db mediaId := by
  have hc : (watchedKeysOf db mediaId).contains (seKey a b) = true ↔
      seKey a b ∈ watchedKeysOf db mediaId := by simp
  rw [hc]
  unfold watchedKeysOf watchedPairsOf
  constructor
  · intro h
    obtain ⟨srow, hsrow, hin⟩ := List.mem_flatMap.mp h
    obtain ⟨erow, herow, heq⟩ := List.mem_map.mp hin
    obtain ⟨ha, hb⟩ := seKey_inj heq
    refine List.mem_flatMap.mpr ⟨srow, hsrow, ?_⟩
    refine List.mem_map.mpr ⟨erow, herow, ?_⟩
    rw [← ha, ← hb]
  · intro h
    obtain ⟨srow, hsrow, hin⟩ := List.mem_flatMap.mp h
    obtain ⟨erow, herow, heq⟩ := List.mem_map.mp hin
    refine List.mem_flatMap.mpr ⟨srow, hsrow, ?_⟩
    refine List.mem_map.mpr ⟨erow, herow, ?_⟩
    have h1 : srow.season_number = a := congrArg Prod.fst heq
    have h2 : erow.episode_number = b := congrArg Prod.snd heq
    show seKey srow.season_number erow.episode_number = seKey a b
    rw [h1, h2]

/-- C1: after a successful re-sync, every episode of the media item's
(freshly rebuilt) tree is watched exactly when its (season number, episode
number) key is in the pre-re-sync watched snapshot, and every such key comes
from the freshly parsed guide — so a watched key that the fresh parse no
longer contains is carried by no episode. -/
theorem resync_watched_spec (db : DbState) (mediaId : Nat) (customUrl : Option String)
    (rows : List Row) (m : MediaRow)
    (hwf : DbWF db)
    (hm : db.media.find? (fun r => r.id == mediaId) = some m)
    (ht : m.type = "tv_show") :
    ∀ e ∈ (rescrape db mediaId customUrl (Except.ok rows)).db.episodes,
      ∀ s ∈ (rescrape db mediaId customUrl (Except.ok rows)).db.seasons,
        s.media_id = mediaId → e.season_id = s.id →
          ((e.is_watched = true ↔
              (s.season_number, e.episode_number) ∈ watchedPairsOf db mediaId) ∧
           (s.season_number, e.episode_number) ∈ guideKeys rows) := by
  obtain ⟨hwf1, hwf2, hwf3, hwf4⟩ := hwf
  have hres : rescrape db mediaId customUrl (Except.ok rows) =
      ⟨204, (processGuide mediaId
        (some (watchedKeysOf (resolveEpguidesUrl db mediaId m customUrl).2 mediaId))
        ⟨0, [], deleteEpisodeTree (resolveEpguidesUrl db mediaId m customUrl).2 mediaId⟩
        rows).db⟩ := by
    simp only [rescrape, hm]
    rw [if_neg (by simp [ht])]
  obtain ⟨hrs, hre, hrn⟩ := resolveEpguidesUrl_tree db mediaId m customUrl
  have hksEq : watchedKeysOf (resolveEpguidesUrl db mediaId m customUrl).2 mediaId
      = watchedKeysOf db mediaId := by
    unfold watchedKeysOf
    rw [hrs, hre]
  have hst0 : StWF mediaId
      ⟨0, [], deleteEpisodeTree (resolveEpguidesUrl db mediaId m customUrl).2 mediaId⟩ := by
    unfold StWF deleteEpisodeTree
    simp only
    rw [hrs, hre, hrn]
    refine ⟨?_, ?_, hwf3, ?_, by simp⟩
    · intro s hs
      exact hwf1 s (List.mem_of_mem_filter hs)
    · intro e he
      exact hwf2 e (List.mem_of_mem_filter he)
    · exact List.Nodup.sublist ((List.filter_sublist _).map (fun s : SeasonRow => s.id)) hwf4
  obtain ⟨hwfF, hmono, newS, newE, hseasF, hepsF, hnewS, hnewE⟩ :=
    processGuide_master mediaId
      (watchedKeysOf (resolveEpguidesUrl db mediaId m customUrl).2 mediaId) rows
      ⟨0, [], deleteEpisodeTree (resolveEpguidesUrl db mediaId m customUrl).2 mediaId⟩ hst0
  intro e he s hs hsm heq
  rw [hres] at he hs
  simp only at he hs
  have hsNew : s ∈ newS := by
    rw [hseasF] at hs
    rcases List.mem_append.mp hs with h1 | h2
    · exfalso
      simp only [deleteEpisodeTree] at h1
      have := (List.mem_filter.mp h1).2
      simp only [Bool.not_eq_eq_eq_not, Bool.not_true, beq_eq_false_iff_ne] at this
      exact this hsm
    · exact h2
  have heNew : e ∈ newE := by
    rw [hepsF] at he
    rcases List.mem_append.mp he with h1 | h2
    · exfalso
      have hbound : e.season_id <
          (deleteEpisodeTree (resolveEpguidesUrl db mediaId m customUrl).2 mediaId).nextSeasonId :=
        hst0.2.1 e h1
      have hfresh := (hnewS s hsNew).2
      simp only at hbound hfresh
      omega
    · exact h2
  have hmain := hnewE e heNew s hs heq
  refine ⟨?_, ?_⟩
  · rw [hmain.1, hksEq]
    exact watchedKeys_contains_iff db mediaId s.season_number e.episode_number
  · exact hmain.2

/-- Fixture guide: header "Season 1" then data row "1-1 | 13 Jan 15 | Pilot". -/
def exHeaderRow : Row := ⟨[⟨true, "Season 1", ""⟩]⟩

def exDataRow : Row :=
  ⟨[⟨false, "1", ""⟩, ⟨false, "1-1", ""⟩, ⟨false, "13 Jan 15", ""⟩, ⟨false, "", "Pilot"⟩]⟩

def exRows : List Row := [exHeaderRow, exDataRow]

theorem resync_watched_witness :
    ((⟨2, 2, 1, "Pilot", parseAirDate "13 Jan 15", true⟩ : EpisodeRow).is_watched = true ↔
      (1, 1) ∈ watchedPairsOf exDb 1) ∧ (1, 1) ∈ guideKeys exRows := by
  have h := resync_watched_spec exDb 1 none exRows exMedia
    (by constructor <;> decide) (by decide) (by decide)
    (⟨2, 2, 1, "Pilot", parseAirDate "13 Jan 15", true⟩ : EpisodeRow) (by decide)
    (⟨2, 1, 1, some (some 2015), false⟩ : SeasonRow) (by decide) (by decide) (by decide)
  exact ⟨h.1, h.2⟩

theorem air_date_parsing_witness :
    parseAirDate "a b" = none ∧
    parseAirDate "13 Jan 15" = some (JsDate.valid 2015 1 13) := by
  exact ⟨(air_date_parsing_spec "a b").1 (by decide), (air_date_parsing_spec "13 Jan 15").2.1⟩

theorem slug_derivation_witness :
    normalizeTitleForEpguides "The Office (US)" = "TheOffice" ∧
    Char.isAlphanum 'T' = true := by
  have h := slug_derivation_spec "The Office (US)"
  exact ⟨h.1, h.2.2.2 'T' (by decide)⟩

/-! ## Initial ingest (POST /api/media, part_000 lines 325-544)

The IMDB page is modelled at the cheerio boundary: the fields are the text /
attribute results of the fixed structural queries the extractor runs
(`he.decode` entity decoding is part of text extraction and already applied
in these fields). -/

structure ImdbPage where
  heroTitle : String
  titleTag : String
  releaseInfoFirst : String
  plot : String
  posterSrc : Option String
  ratingScore : String
  genreTexts : List String
  actorTexts : List String
  episodesLinkCount : Nat
deriving DecidableEq, Repr

/-- One iteration of the genre loop: look up the name (case-sensitive exact
match), insert-if-absent, then create the association link. -/
def linkGenreStep (mediaDbId : Nat) (d : DbState) (name : String) : DbState :=
  match d.genres.find? (fun g => g.name == name) with
  | some g => { d with mediaGenres := d.mediaGenres ++ [(mediaDbId, g.id)] }
  | none =>
    { d with
      genres := d.genres ++ [⟨d.nextGenreId, name⟩],
      nextGenreId := d.nextGenreId + 1,
      mediaGenres := d.mediaGenres ++ [(mediaDbId, d.nextGenreId)] }

def linkGenres (mediaDbId : Nat) (names : List String) (db : DbState) : DbState :=
  names.foldl (linkGenreStep mediaDbId) db

/-- One iteration of the actor loop (`if (!name) continue;` skips falsy
names). -/
def linkActorStep (mediaDbId : Nat) (d : DbState) (name : String) : DbState :=
  if name == "" then d
  else
    match d.actors.find? (fun a => a.name == name) with
    | some a => { d with mediaActors := d.mediaActors ++ [(mediaDbId, a.id)] }
    | none =>
      { d with
        actors := d.actors ++ [⟨d.nextActorId, name⟩],
        nextActorId := d.nextActorId + 1,
        mediaActors := d.mediaActors ++ [(mediaDbId, d.nextActorId)] }

def linkActors (mediaDbId : Nat) (names : List String) (db : DbState) : DbState :=
  names.foldl (linkActorStep mediaDbId) db

structure AddMediaResult where
  status : Nat
  db : DbState
  created : Option MediaRow
  existingId : Option Nat
deriving DecidableEq, Repr

/-- The committed part of POST /api/media, after the title check: field
extraction, the media INSERT (is_watched and epguides_url defaulting), the
genre/actor loops, and — for series — the episode-guide attempt whose
failure is caught and swallowed (`Except.error` leaves the transaction as it
was, which is then committed). -/
def addMediaCommit (db : DbState) (imdbId title : String) (page : ImdbPage)
    (fetchEpguides : Except Unit (List Row)) : AddMediaResult :=
  let yearText := jsTrim page.releaseInfoFirst
  let year : Option JsNum := if yearText == "" then none else some (jsParseInt yearText)
  let description := jsTrim page.plot
  let rating := ratingNormalize (jsTrim page.ratingScore)
  let mediaType := if 0 < page.episodesLinkCount then "tv_show" else "movie"
  let newMedia : MediaRow := ⟨db.nextMediaId, imdbId, title, mediaType, page.posterSrc,
    description, year, rating, false, none⟩
  let d1 := { db with media := db.media ++ [newMedia], nextMediaId := db.nextMediaId + 1 }
  let d2 := linkGenres newMedia.id (page.genreTexts.map jsTrim) d1
  let d3 := linkActors newMedia.id (page.actorTexts.map jsTrim) d2
  let d4 :=
    if mediaType == "tv_show" then
      match fetchEpguides with
      | Except.error _ => d3
      | Except.ok grows => (processGuide newMedia.id none ⟨0, [], d3⟩ grows).db
    else d3
  ⟨201, d4, some newMedia, none⟩

/-- POST /api/media: extract the IMDB id from the URL (400 on no match),
409 with the existing internal id on a duplicate external id, fetch and
extract (failures roll back to the original database with a 500), then
commit. -/
def addMedia (db : DbState) (imdbUrl : String) (fetchImdb : Except Unit ImdbPage)
    (fetchEpguides : Except Unit (List Row)) : AddMediaResult :=
  match titleIdCapture imdbUrl.toList with
  | none => ⟨400, db, none, none⟩
  | some idChars =>
    match db.media.find? (fun r => r.imdb_id == idChars.asString) with
    | some existing => ⟨409, db, none, some existing.id⟩
    | none =>
      match fetchImdb with
      | Except.error _ => ⟨500, db, none, none⟩
      | Except.ok page =>
        let title0 := jsTrim page.heroTitle
        let title :=
          if title0 == "" then
            match lastWsParen (jsTrim page.titleTag).toList with
            | some g => if g.isEmpty then title0 else g.asString
            | none => title0
          else title0
        if title == "" then ⟨500, db, none, none⟩
        else addMediaCommit db idChars.asString title page fetchEpguides

theorem linkGenres_tables (mediaDbId : Nat) :
    ∀ (names : List String) (d : DbState),
      (linkGenres mediaDbId names d).media = d.media ∧
      (linkGenres mediaDbId names d).seasons = d.seasons ∧
      (linkGenres mediaDbId names d).episodes = d.episodes := by
  intro names
  induction names with
  | nil => intro d; exact ⟨rfl, rfl, rfl⟩
  | cons n ns ih =>
    intro d
    have hstep : (linkGenreStep mediaDbId d n).media = d.media ∧
        (linkGenreStep mediaDbId d n).seasons = d.seasons ∧
        (linkGenreStep mediaDbId d n).episodes = d.episodes := by
      unfold linkGenreStep
      rcases h : d.genres.find? (fun g => g.name == n) with _ | g <;>
        simp only [h] <;> refine ⟨?_, ?_, ?_⟩ <;> trivial
    have := ih (linkGenreStep mediaDbId d n)
    unfold linkGenres at this ⊢
    rw [List.foldl_cons]
    exact ⟨this.1.trans hstep.1, this.2.1.trans hstep.2.1, this.2.2.trans hstep.2.2⟩

theorem linkActors_tables (mediaDbId : Nat) :
    ∀ (names : List String) (d : DbState),
      (linkActors mediaDbId names d).media = d.media ∧
      (linkActors mediaDbId names d).seasons = d.seasons ∧
      (linkActors mediaDbId names d).episodes = d.episodes := by
  intro names
  induction names with
  | nil => intro d; exact ⟨rfl, rfl, rfl⟩
  | cons n ns ih =>
    intro d
    have hstep : (linkActorStep mediaDbId d n).media = d.media ∧
        (linkActorStep mediaDbId d n).seasons = d.seasons ∧
        (linkActorStep mediaDbId d n).episodes = d.episodes := by
      unfold linkActorStep
      by_cases hn : (n == "") = true
      · rw [if_pos hn]; exact ⟨rfl, rfl, rfl⟩
      · rw [if_neg hn]
        rcases h : d.actors.find? (fun a => a.name == n) with _ | a <;>
          simp only [h] <;> refine ⟨?_, ?_, ?_⟩ <;> trivial
    have := ih (linkActorStep mediaDbId d n)
    unfold linkActors at this ⊢
    rw [List.foldl_cons]
    exact ⟨this.1.trans hstep.1, this.2.1.trans hstep.2.1, this.2.2.trans hstep.2.2⟩

theorem linkGenres_media (mediaDbId : Nat) (names : List String) (d : DbState) :
    (linkGenres mediaDbId names d).media = d.media := (linkGenres_tables mediaDbId names d).1

theorem linkGenres_seasons (mediaDbId : Nat) (names : List String) (d : DbState) :
    (linkGenres mediaDbId names d).seasons = d.seasons :=
  (linkGenres_tables mediaDbId names d).2.1

theorem linkActors_media (mediaDbId : Nat) (names : List String) (d : DbState) :
    (linkActors mediaDbId names d).media = d.media := (linkActors_tables mediaDbId names d).1

theorem linkActors_seasons (mediaDbId : Nat) (names : List String) (d : DbState) :
    (linkActors mediaDbId names d).seasons = d.seasons :=
  (linkActors_tables mediaDbId names d).2.1

theorem insertEpisode_media (m : Nat) (w : Option (List (List Char))) (sN eN : Nat)
    (ad ttl : String) (st : GuideSt) :
    (insertEpisode m w sN eN ad ttl st).db.media = st.db.media := by
  unfold insertEpisode insertNewSeason
  rcases h : jsMapGet st.seasonsMap sN with _ | i
  · simp [h]
  · by_cases hi : i ≠ 0
    · simp [h, hi]
    · simp [h, hi]

theorem processRow_media (m : Nat) (w : Option (List (List Char))) (st : GuideSt)
    (row : Row) :
    (processRow m w st row).db.media = st.db.media := by
  unfold processRow
  cases hh : seasonHeaderText row with
  | some htext =>
    cases hc : seasonCapture htext.toList with
    | some n => simp only [hh, hc]
    | none =>
      cases hsp2 : hasSubstring ("Specials".toList) htext.toList with
      | true =>
        simp only [hh, hc, hsp2]
        rw [if_pos trivial]
      | false =>
        simp only [hh, hc, hsp2]
        rw [if_neg (by simp)]
  | none =>
    rcases hcells : row.cells with _ | ⟨c0, _ | ⟨c1, _ | ⟨c2, _ | ⟨c3, _ | rest⟩⟩⟩⟩
    · simp only [hh, hcells]
    · simp only [hh, hcells]
    · simp only [hh, hcells]
    · simp only [hh, hcells]
    · cases hsp : specialCapture (jsTrim c1.text).toList with
      | some p =>
        obtain ⟨sNum, eNum⟩ := p
        simp only [hh, hcells, hsp]
        apply insertEpisode_media
      | none =>
        cases hrg : regularCapture (jsTrim c1.text).toList with
        | some p =>
          obtain ⟨sNum, eNum⟩ := p
          by_cases hskip : st.currentSeason ≠ 0 ∧ sNum ≠ st.currentSeason
          · simp only [hh, hcells, hsp, hrg, if_pos hskip]
          · simp only [hh, hcells, hsp, hrg, if_neg hskip]
            apply insertEpisode_media
        | none => simp only [hh, hcells, hsp, hrg]
    · simp only [hh, hcells]

theorem processGuide_media (m : Nat) (w : Option (List (List Char))) :
    ∀ (rows : List Row) (st : GuideSt),
      (processGuide m w st rows).db.media = st.db.media := by
  intro rows
  induction rows with
  | nil => intro st; rfl
  | cons r rs ih =>
    intro st
    have hstep : processGuide m w st (r :: rs) = processGuide m w (processRow m w st r) rs := rfl
    rw [hstep, ih, processRow_media]

theorem find?_append_none {α : Type} (p : α → Bool) (l1 l2 : List α)
    (h : l1.find? p = none) : (l1 ++ l2).find? p = l2.find? p := by
  induction l1 with
  | nil => simp
  | cons a as ih =>
    cases hpa : p a
    · rw [List.cons_append, List.find?_cons_of_neg _ (by simp [hpa])]
      rw [List.find?_cons_of_neg _ (by simp [hpa])] at h
      exact ih h
    · rw [List.find?_cons_of_pos _ hpa] at h
      cases h

/-- The committed result always carries status 201, the created row (with
the extracted external id), and appends exactly that row to the media
table — whatever the episode-guide attempt did. -/
theorem addMediaCommit_media (db : DbState) (imdbId title : String) (page : ImdbPage)
    (g : Except Unit (List Row)) :
    ∃ nm : MediaRow, (addMediaCommit db imdbId title page g).created = some nm ∧
      (addMediaCommit db imdbId title page g).status = 201 ∧
      nm.imdb_id = imdbId ∧ nm.id = db.nextMediaId ∧
      nm.type = (if 0 < page.episodesLinkCount then "tv_show" else "movie") ∧
      (addMediaCommit db imdbId title page g).db.media = db.media ++ [nm] := by
  unfold addMediaCommit
  refine ⟨_, rfl, rfl, rfl, rfl, rfl, ?_⟩
  have htvb : (("tv_show" : String) == "tv_show") = true := by decide
  have hmvb : (("movie" : String) == "tv_show") = false := by decide
  by_cases hcnt : 0 < page.episodesLinkCount
  · cases g with
    | error e => simp [if_pos hcnt, htvb, linkActors_media, linkGenres_media]
    | ok grows =>
      simp [if_pos hcnt, htvb, processGuide_media, linkActors_media, linkGenres_media]
  · simp [if_neg hcnt, hmvb, linkActors_media, linkGenres_media]

theorem addMedia_success_eq (db : DbState) (imdbUrl : String) (page : ImdbPage)
    (g : Except Unit (List Row)) (idc : List Char)
    (hcap : titleIdCapture imdbUrl.toList = some idc)
    (hdup : db.media.find? (fun r => r.imdb_id == idc.asString) = none)
    (htitle : jsTrim page.heroTitle ≠ "") :
    addMedia db imdbUrl (Except.ok page) g
      = addMediaCommit db idc.asString (jsTrim page.heroTitle) page g := by
  unfold addMedia
  simp only [hcap, hdup]
  have h0 : (jsTrim page.heroTitle == "") = false := by
    simp only [beq_eq_false_iff_ne, ne_eq]
    exact htitle
  simp [h0]

/-- C3: during initial ingest of a series, an episode-guide failure is
swallowed: the call still commits and returns 201 with the created entity,
and the created MediaItem has zero seasons. -/
theorem ingest_swallow_spec (db : DbState) (imdbUrl : String) (page : ImdbPage)
    (idc : List Char)
    (hcap : titleIdCapture imdbUrl.toList = some idc)
    (hdup : db.media.find? (fun r => r.imdb_id == idc.asString) = none)
    (htitle : jsTrim page.heroTitle ≠ "")
    (htv : 0 < page.episodesLinkCount)
    (hfresh : ∀ s ∈ db.seasons, s.media_id ≠ db.nextMediaId) :
    (addMedia db imdbUrl (Except.ok page) (Except.error ())).status = 201 ∧
    ∃ created,
      (addMedia db imdbUrl (Except.ok page) (Except.error ())).created = some created ∧
      created ∈ (addMedia db imdbUrl (Except.ok page) (Except.error ())).db.media ∧
      created.type = "tv_show" ∧
      (addMedia db imdbUrl (Except.ok page) (Except.error ())).db.seasons.filter
        (fun s => s.media_id == created.id) = [] := by
  rw [addMedia_success_eq db imdbUrl page (Except.error ()) idc hcap hdup htitle]
  obtain ⟨nm, hcre, hst, hiid, hid, htype, hmed⟩ :=
    addMediaCommit_media db idc.asString (jsTrim page.heroTitle) page (Except.error ())
  have hseas : (addMediaCommit db idc.asString (jsTrim page.heroTitle) page
      (Except.error ())).db.seasons = db.seasons := by
    unfold addMediaCommit
    have htvb : (("tv_show" : String) == "tv_show") = true := by decide
    have hmvb : (("movie" : String) == "tv_show") = false := by decide
    by_cases hcnt : 0 < page.episodesLinkCount
    · simp [if_pos hcnt, htvb, linkActors_seasons, linkGenres_seasons]
    · simp [if_neg hcnt, hmvb, linkActors_seasons, linkGenres_seasons]
  refine ⟨hst, nm, hcre, ?_, ?_, ?_⟩
  · rw [hmed]
    exact List.mem_append_right _ (List.mem_singleton.mpr rfl)
  · rw [htype, if_pos htv]
  · rw [hseas]
    rw [List.filter_eq_nil]
    intro s hs
    have hne := hfresh s hs
    rw [hid]
    simpa using hne

/-- C9: submitting add-media twice with the same external id persists
exactly one MediaItem row: the first call returns 201 and inserts the row,
the second returns 409 carrying the existing row's internal id and leaves
the database unchanged. -/
theorem add_media_conflict_spec (db : DbState) (imdbUrl : String) (page : ImdbPage)
    (g1 : Except Unit (List Row)) (f2 : Except Unit ImdbPage) (g2 : Except Unit (List Row))
    (idc : List Char)
    (hcap : titleIdCapture imdbUrl.toList = some idc)
    (hdup : db.media.find? (fun r => r.imdb_id == idc.asString) = none)
    (htitle : jsTrim page.heroTitle ≠ "") :
    (addMedia db imdbUrl (Except.ok page) g1).status = 201 ∧
    (addMedia (addMedia db imdbUrl (Except.ok page) g1).db imdbUrl f2 g2).status = 409 ∧
    (addMedia (addMedia db imdbUrl (Except.ok page) g1).db imdbUrl f2 g2).db
      = (addMedia db imdbUrl (Except.ok page) g1).db ∧
    ∃ created, (addMedia db imdbUrl (Except.ok page) g1).created = some created ∧
      (addMedia (addMedia db imdbUrl (Except.ok page) g1).db imdbUrl f2 g2).existingId
        = some created.id ∧
      (addMedia db imdbUrl (Except.ok page) g1).db.media.filter
        (fun r => r.imdb_id == idc.asString) = [created] := by
  rw [addMedia_success_eq db imdbUrl page g1 idc hcap hdup htitle]
  obtain ⟨nm, hcre, hst, hiid, hid, htype, hmed⟩ :=
    addMediaCommit_media db idc.asString (jsTrim page.heroTitle) page g1
  have hpnm : (nm.imdb_id == idc.asString) = true := by
    rw [hiid]
    simp
  have hfind : (addMediaCommit db idc.asString (jsTrim page.heroTitle) page g1).db.media.find?
      (fun r => r.imdb_id == idc.asString) = some nm := by
    rw [hmed, find?_append_none _ _ _ hdup]
    simp [List.find?, hpnm]
  have h2 : addMedia (addMediaCommit db idc.asString (jsTrim page.heroTitle) page g1).db
      imdbUrl f2 g2 =
      ⟨409, (addMediaCommit db idc.asString (jsTrim page.heroTitle) page g1).db,
        none, some nm.id⟩ := by
    unfold addMedia
    simp only [hcap, hfind]
  refine ⟨hst, by rw [h2], by rw [h2], nm, hcre, by rw [h2], ?_⟩
  rw [hmed, List.filter_append]
  have hnil : db.media.filter (fun r => r.imdb_id == idc.asString) = [] := by
    rw [List.filter_eq_nil]
    intro r hr
    have := List.find?_eq_none.mp hdup r hr
    simpa using this
  rw [hnil, List.nil_append]
  simp [hpnm]

/-! ## Discovery aggregator (GET /api/recommendations/discover, part_000
lines 1026-1152) and the client-side library filter of its caller
(fetchDiscover, src/unnamed/part_002 lines 272-313)

A TMDB result item is modelled with the fields the code reads; `title` /
`name` are the movie/tv title fields of the TMDB schema. -/

structure TmdbItem where
  id : Int
  media_type : Option String
  title : String
  name : String
  poster_path : Option String
  release_date : Option String
  first_air_date : Option String
  overview : String
deriving DecidableEq, Repr

structure DiscoverEntry where
  id : Int
  title : String
  type : String
  poster_path : Option String
  year : String
  overview : String
deriving DecidableEq, Repr

/-- Embedding of `(item.release_date || item.first_air_date || '').substring(0, 4)`. -/
def yearStrOf (it : TmdbItem) : String :=
  jsSubstring ((jsOrStr (jsOrStr it.release_date it.first_air_date) (some "")).getD "") 0 4

/-- The dedup loop (lines 1123-1130): keep an item iff its id was not seen,
recording seen ids. -/
def dedupById (seen : List Int) : List TmdbItem → List TmdbItem
  | [] => []
  | x :: xs =>
    if seen.contains x.id then dedupById seen xs
    else x :: dedupById (x.id :: seen) xs

def discoverDedup (l : List TmdbItem) : List TmdbItem := dedupById [] l

/-- Lines 1133-1144: `item.media_type || defaultMediaType`, null for any
type other than movie/tv (filters out people), else the mapped entry. -/
def mapDiscoverItem (defaultMediaType : Option String) (item : TmdbItem) :
    Option DiscoverEntry :=
  let mediaType := jsOrStr item.media_type defaultMediaType
  if mediaType ≠ some "movie" ∧ mediaType ≠ some "tv" then none
  else some ⟨item.id,
    (if mediaType == some "movie" then item.title else item.name),
    (if mediaType == some "movie" then "movie" else "tv_show"),
    item.poster_path, yearStrOf item, item.overview⟩

/-- The aggregation pipeline: flatten the page results in order, dedup by
id, map, then `filter(item => item !== null && item.poster_path)`. -/
def discoverResults (defaultMediaType : Option String)
    (pages : List (List TmdbItem)) : List DiscoverEntry :=
  let allResults := List.join pages
  let uniqueResults := discoverDedup allResults
  ((uniqueResults.map (mapDiscoverItem defaultMediaType)).filter (fun o =>
    match o with
    | some e => strTruthy e.poster_path
    | none => false)).reduceOption

structure FrontMedia where
  id : Int
  title : String
  type : String
  poster_url : Option String
  year : Option JsNum
  isRemote : Bool
  overview : String
deriving DecidableEq, Repr

/-- The per-item formatting of fetchDiscover (part_002 lines 290-297). -/
def formatDiscoverItem (item : DiscoverEntry) : FrontMedia :=
  ⟨item.id, item.title, item.type,
   (if strTruthy item.poster_path then
      some ("https://image.tmdb.org/t/p/w300" ++ item.poster_path.getD "")
    else none),
   (if item.year == "" then none else some (jsParseInt item.year)),
   true, item.overview⟩

/-- Embedding of `String.prototype.toLowerCase`, modelled on the ASCII range (the only
case mapping the compared titles need). -/
def jsCharToLower (c : Char) : Char :=
  if 'A' ≤ c ∧ c ≤ 'Z' then Char.ofNat (c.toNat + 32) else c

def jsToLower (s : String) : String := (s.toList.map jsCharToLower).asString

/-- The client-side exclusion filter of fetchDiscover (lines 287-298): one
`Set` of lowercased library titles per call, then
`.filter(item => !existingTitles.has(item.title.toLowerCase()))`. -/
def fetchDiscoverFilter (allMedia : List MediaRow) (data : List DiscoverEntry) :
    List FrontMedia :=
  let existingTitles := allMedia.map (fun m => jsToLower m.title)
  (data.map formatDiscoverItem).filter (fun item =>
    !(existingTitles.contains (jsToLower item.title)))

/-- The discovery aggregator end to end: the endpoint's aggregation followed
by the caller's library filter — the list the user sees. -/
def discoverVisible (allMedia : List MediaRow) (defaultMediaType : Option String)
    (pages : List (List TmdbItem)) : List FrontMedia :=
  fetchDiscoverFilter allMedia (discoverResults defaultMediaType pages)

/-! ## Season watched toggle (POST /api/seasons/:id/watched, part_000 lines
821-843) -/

/-- The two UPDATEs of the transaction: the season row's flag, then the flag
of every episode with that season id. -/
def setSeasonWatched (db : DbState) (seasonId : Nat) (val : Bool) : DbState :=
  { db with
    seasons := db.seasons.map (fun s =>
      if s.id == seasonId then { s with is_watched := val } else s),
    episodes := db.episodes.map (fun e =>
      if e.season_id == seasonId then { e with is_watched := val } else e) }

theorem dedupById_sublist : ∀ (l : List TmdbItem) (seen : List Int),
    (dedupById seen l).Sublist l := by
  intro l
  induction l with
  | nil => intro seen; simp [dedupById]
  | cons x xs ih =>
    intro seen
    rw [dedupById]
    by_cases h : seen.contains x.id
    · rw [if_pos h]
      exact (ih seen).cons x
    · rw [if_neg h]
      exact (ih (x.id :: seen)).cons₂ x

theorem dedupById_nodup : ∀ (l : List TmdbItem) (seen : List Int),
    ((dedupById seen l).map (fun x => x.id)).Nodup ∧
    ∀ x ∈ dedupById seen l, x.id ∉ seen := by
  intro l
  induction l with
  | nil => intro seen; simp [dedupById]
  | cons x xs ih =>
    intro seen
    rw [dedupById]
    by_cases h : seen.contains x.id
    · rw [if_pos h]
      exact ih seen
    · rw [if_neg h]
      obtain ⟨ihn, ihs⟩ := ih (x.id :: seen)
      refine ⟨?_, ?_⟩
      · simp only [List.map_cons, List.nodup_cons]
        refine ⟨?_, ihn⟩
        intro hmem
        obtain ⟨y, hy, hyid⟩ := List.mem_map.mp hmem
        exact (ihs y hy) (by rw [hyid]; exact List.mem_cons_self _ _)
      · intro y hy
        rcases List.mem_cons.mp hy with rfl | hy2
        · simpa using h
        · intro hc
          exact (ihs y hy2) (List.mem_cons_of_mem _ hc)

theorem find?_cons_pos {α : Type} (p : α → Bool) (a : α) (l : List α) (h : p a = true) :
    (a :: l).find? p = some a := by
  simp [List.find?, h]

theorem find?_cons_neg {α : Type} (p : α → Bool) (a : α) (l : List α) (h : p a = false) :
    (a :: l).find? p = l.find? p := by
  simp [List.find?, h]

theorem dedupById_find? : ∀ (l : List TmdbItem) (seen : List Int) (x : TmdbItem),
    x ∈ dedupById seen l → l.find? (fun y => y.id == x.id) = some x := by
  intro l
  induction l with
  | nil => intro seen x hx; simp [dedupById] at hx
  | cons y ys ih =>
    intro seen x hx
    rw [dedupById] at hx
    by_cases h : seen.contains y.id
    · rw [if_pos h] at hx
      have hxs := (dedupById_nodup ys seen).2 x hx
      have hy : y.id ∈ seen := by simpa using h
      have hne : (y.id == x.id) = false := by
        simp only [beq_eq_false_iff_ne, ne_eq]
        intro heq
        rw [heq] at hy
        exact hxs hy
      rw [find?_cons_neg (fun z => z.id == x.id) y ys hne]
      exact ih seen x hx
    · rw [if_neg h] at hx
      rcases List.mem_cons.mp hx with rfl | hx2
      · rw [find?_cons_pos (fun z => z.id == x.id) x ys (by simp)]
      · have hxs := (dedupById_nodup ys (y.id :: seen)).2 x hx2
        have hne : (y.id == x.id) = false := by
          simp only [beq_eq_false_iff_ne, ne_eq]
          intro heq
          exact hxs (by rw [← heq]; exact List.mem_cons_self _ _)
        rw [find?_cons_neg (fun z => z.id == x.id) y ys hne]
        exact ih (y.id :: seen) x hx2

theorem mapDiscoverItem_some {d : Option String} {it : TmdbItem} {e : DiscoverEntry}
    (h : mapDiscoverItem d it = some e) :
    e.id = it.id ∧
    (jsOrStr it.media_type d = some "movie" ∨ jsOrStr it.media_type d = some "tv") := by
  by_cases hc : jsOrStr it.media_type d ≠ some "movie" ∧ jsOrStr it.media_type d ≠ some "tv"
  · simp only [mapDiscoverItem, if_pos hc] at h
    cases h
  · simp only [mapDiscoverItem, if_neg hc] at h
    simp only [Option.some.injEq] at h
    subst h
    refine ⟨rfl, ?_⟩
    rcases Decidable.not_and_iff_or_not.mp hc with h1 | h2
    · left
      exact Decidable.not_not.mp h1
    · right
      exact Decidable.not_not.mp h2

theorem discoverResults_mem {d : Option String} {pages : List (List TmdbItem)}
    {e : DiscoverEntry} :
    e ∈ discoverResults d pages ↔
      ∃ it ∈ discoverDedup (List.join pages),
        mapDiscoverItem d it = some e ∧ strTruthy e.poster_path = true := by
  unfold discoverResults
  constructor
  · intro h
    rw [List.reduceOption_mem_iff] at h
    have h2 := List.mem_filter.mp h
    obtain ⟨it, hit, hmap⟩ := List.mem_map.mp h2.1
    exact ⟨it, hit, hmap, by simpa using h2.2⟩
  · rintro ⟨it, hit, hmap, hp⟩
    rw [List.reduceOption_mem_iff]
    exact List.mem_filter.mpr ⟨List.mem_map.mpr ⟨it, hit, hmap⟩, by simpa using hp⟩

theorem resultsIds_sublist (d : Option String) :
    ∀ l : List TmdbItem,
      ((((l.map (mapDiscoverItem d)).filter (fun o =>
          match o with
          | some e => strTruthy e.poster_path
          | none => false)).reduceOption).map (fun x => x.id)).Sublist
        (l.map (fun x => x.id)) := by
  intro l
  induction l with
  | nil => simp
  | cons x xs ih =>
    simp only [List.map_cons, List.filter_cons]
    cases hm : mapDiscoverItem d x with
    | none =>
      simp only [List.reduceOption]
      exact ih.cons x.id
    | some e =>
      by_cases hp : strTruthy e.poster_path = true
      · simp only [hp, if_pos trivial, List.reduceOption_cons_of_some, List.map_cons]
        have hid := (mapDiscoverItem_some hm).1
        rw [hid]
        exact ih.cons₂ x.id
      · simp only [hp]
        simp only [Bool.false_eq_true, if_false]
        exact ih.cons x.id

/-- C5: the aggregated discovery list has each catalog id at most once, its
entries appear in first-seen order (its id sequence is a subsequence of the
deduplicated id sequence, itself an order-preserving subselection of the
flattened pages), and every entry keeps the first occurrence of its id,
has a movie/tv underlying media type, and carries a poster image. -/
theorem discover_dedup_filter_spec (d : Option String) (pages : List (List TmdbItem))
    (e : DiscoverEntry) (he : e ∈ discoverResults d pages) :
    ((discoverResults d pages).map (fun x => x.id)).Nodup ∧
    ((discoverResults d pages).map (fun x => x.id)).Sublist
      ((discoverDedup (List.join pages)).map (fun x => x.id)) ∧
    (discoverDedup (List.join pages)).Sublist (List.join pages) ∧
    strTruthy e.poster_path = true ∧
    ∃ it, (List.join pages).find? (fun y => y.id == e.id) = some it ∧
      mapDiscoverItem d it = some e ∧
      (jsOrStr it.media_type d = some "movie" ∨ jsOrStr it.media_type d = some "tv") := by
  obtain ⟨it, hit, hmap, hp⟩ := discoverResults_mem.mp he
  have hsub := resultsIds_sublist d (discoverDedup (List.join pages))
  have hnodupDedup := (dedupById_nodup (List.join pages) []).1
  refine ⟨List.Nodup.sublist hsub hnodupDedup, hsub, dedupById_sublist _ [], hp, ?_⟩
  obtain ⟨hidEq, hty⟩ := mapDiscoverItem_some hmap
  refine ⟨it, ?_, hmap, hty⟩
  rw [hidEq]
  exact dedupById_find? (List.join pages) [] it hit

/-- C4: the list the discovery aggregator delivers (endpoint aggregation
plus the caller's once-per-call library set) contains no item whose title
case-insensitively matches a library title. -/
theorem discover_excludes_library_spec (allMedia : List MediaRow) (d : Option String)
    (pages : List (List TmdbItem)) (item : FrontMedia)
    (hitem : item ∈ discoverVisible allMedia d pages) :
    ∀ m ∈ allMedia, jsToLower item.title ≠ jsToLower m.title := by
  intro m hm heq
  simp only [discoverVisible, fetchDiscoverFilter] at hitem
  have h2 := (List.mem_filter.mp hitem).2
  simp at h2
  exact h2 m hm heq.symm

/-- C10: the season watched-toggle sets the season row's flag and the flag
of every episode of that season to the requested value, in one transaction,
and leaves every other row (media, other seasons, episodes of other
seasons) unchanged. -/
theorem season_toggle_spec (db : DbState) (seasonId : Nat) (val : Bool) :
    (setSeasonWatched db seasonId val).media = db.media ∧
    (setSeasonWatched db seasonId val).seasons.length = db.seasons.length ∧
    (setSeasonWatched db seasonId val).episodes.length = db.episodes.length ∧
    (∀ s ∈ db.seasons, s.id = seasonId →
      { s with is_watched := val } ∈ (setSeasonWatched db seasonId val).seasons) ∧
    (∀ s ∈ db.seasons, s.id ≠ seasonId → s ∈ (setSeasonWatched db seasonId val).seasons) ∧
    (∀ s2 ∈ (setSeasonWatched db seasonId val).seasons,
      (s2.id = seasonId → s2.is_watched = val) ∧ (s2.id ≠ seasonId → s2 ∈ db.seasons)) ∧
    (∀ e ∈ db.episodes, e.season_id = seasonId →
      { e with is_watched := val } ∈ (setSeasonWatched db seasonId val).episodes) ∧
    (∀ e ∈ db.episodes, e.season_id ≠ seasonId →
      e ∈ (setSeasonWatched db seasonId val).episodes) ∧
    (∀ e2 ∈ (setSeasonWatched db seasonId val).episodes,
      (e2.season_id = seasonId → e2.is_watched = val) ∧
      (e2.season_id ≠ seasonId → e2 ∈ db.episodes)) := by
  refine ⟨rfl, by simp [setSeasonWatched], by simp [setSeasonWatched],
    ?_, ?_, ?_, ?_, ?_, ?_⟩
  · intro s hs hid
    refine List.mem_map.mpr ⟨s, hs, ?_⟩
    rw [if_pos (by simp [hid])]
  · intro s hs hid
    refine List.mem_map.mpr ⟨s, hs, ?_⟩
    rw [if_neg (by simp [hid])]
  · intro s2 hs2
    obtain ⟨s, hs, hmap⟩ := List.mem_map.mp hs2
    by_cases hid : s.id = seasonId
    · rw [if_pos (by simp [hid])] at hmap
      subst hmap
      exact ⟨fun _ => rfl, fun hne => absurd hid hne⟩
    · rw [if_neg (by simp [hid])] at hmap
      subst hmap
      exact ⟨fun hcontra => absurd hcontra hid, fun _ => hs⟩
  · intro e he hid
    refine List.mem_map.mpr ⟨e, he, ?_⟩
    rw [if_pos (by simp [hid])]
  · intro e he hid
    refine List.mem_map.mpr ⟨e, he, ?_⟩
    rw [if_neg (by simp [hid])]
  · intro e2 he2
    obtain ⟨e, he, hmap⟩ := List.mem_map.mp he2
    by_cases hid : e.season_id = seasonId
    · rw [if_pos (by simp [hid])] at hmap
      subst hmap
      exact ⟨fun _ => rfl, fun hne => absurd hid hne⟩
    · rw [if_neg (by simp [hid])] at hmap
      subst hmap
      exact ⟨fun hcontra => absurd hcontra hid, fun _ => he⟩

/-- Fixtures for the ingest, conflict and discovery witnesses. -/
def exDb0 : DbState := ⟨[], [], [], [], [], [], [], 1, 1, 1, 1, 1⟩

def exPage : ImdbPage :=
  ⟨"Breaking Bad", "", "2008", "desc", some "p", "9.5/10", ["Drama"],
    ["Bryan Cranston"], 1⟩

def exUrl : String := "https://www.imdb.com/title/tt0903747/"

theorem ingest_swallow_witness :
    (addMedia exDb0 exUrl (Except.ok exPage) (Except.error ())).status = 201 :=
  (ingest_swallow_spec exDb0 exUrl exPage ("tt0903747".toList)
    (by decide) (by decide) (by decide) (by decide) (by decide)).1

theorem add_media_conflict_witness :
    (addMedia exDb0 exUrl (Except.ok exPage) (Except.error ())).status = 201 ∧
    (addMedia (addMedia exDb0 exUrl (Except.ok exPage) (Except.error ())).db exUrl
      (Except.error ()) (Except.error ())).status = 409 := by
  have h := add_media_conflict_spec exDb0 exUrl exPage (Except.error ()) (Except.error ())
    (Except.error ()) ("tt0903747".toList) (by decide) (by decide) (by decide)
  exact ⟨h.1, h.2.1⟩

def exItem : TmdbItem :=
  ⟨42, some "movie", "Foo", "", some "/p.jpg", some "2024-01-01", none, "o"⟩

def exEntry : DiscoverEntry := ⟨42, "Foo", "movie", some "/p.jpg", "2024", "o"⟩

def exLib : MediaRow := ⟨1, "tt1", "Dune", "movie", none, "", none, "8", false, none⟩

def exFront : FrontMedia :=
  ⟨42, "Foo", "movie", some "https://image.tmdb.org/t/p/w300/p.jpg",
    some (some 2024), true, "o"⟩

theorem discover_dedup_filter_witness :
    ((discoverResults none [[exItem], [exItem]]).map (fun x => x.id)).Nodup ∧
    strTruthy exEntry.poster_path = true := by
  have h := discover_dedup_filter_spec none [[exItem], [exItem]] exEntry (by decide)
  exact ⟨h.1, h.2.2.2.1⟩

theorem discover_excludes_library_witness :
    jsToLower exFront.title ≠ jsToLower exLib.title :=
  discover_excludes_library_spec [exLib] none [[exItem], [exItem]] exFront
    (by decide) exLib (by decide)

theorem season_toggle_witness :
    ({ exSeason with is_watched := true } : SeasonRow)
      ∈ (setSeasonWatched exDb 1 true).seasons :=
  (season_toggle_spec exDb 1 true).2.2.2.1 exSeason (by decide) (by decide)

end OpenFlix
